import Mathlib

/-!
Verification development for the NetLink repository (C++ sources
`network_interface.hh` / `router.cc`).

The C++ code is shallowly embedded: every method of `NetworkInterface` and
`Router` becomes a Lean function over explicit state records.  Machine
integers (`uint32_t` IP addresses, 48-bit MAC addresses, `int` TTLs) are
modelled as `Nat` / `Int`; 32-bit wrap-around is written out explicitly
(`% 2^32`) in the one place the source relies on it (the routing mask).
The `exit(1)` sanity-check failure paths of the source are modelled by
`Option`: a function returns `none` exactly when the corresponding C++
code would terminate the process.

The IPv4 / ARP / Ethernet serialization codecs are external collaborators
of the repository (declared byte-exact, round-tripping).  They are
modelled by an inductive `Payload` carrying the parsed value itself:
`serialize` is the injection and parsing succeeds exactly on the matching
constructor, which is precisely the byte-exact round-trip contract the
spec demands of the codecs.
-/

namespace NetLink

/-- MAC addresses are 6-byte identifiers; we model them as `Nat`.
The C++ zero-initialized `EthernetAddress {}` is `0`. -/
abbrev Mac := Nat

/-- The all-ones broadcast MAC address `ff:ff:ff:ff:ff:ff`. -/
def ETHERNET_BROADCAST : Mac := 281474976710655

/-- IPv4 header: the fields the CORE reads or writes (`dst`, `ttl`,
checksum).  Other header fields never influence the modelled control
flow. -/
structure IPv4Header where
  dst : Nat
  ttl : Nat
  checksum : Nat
deriving DecidableEq

/-- Parsed IPv4 datagram: header plus an opaque body identifier standing
for the (uninterpreted) payload bytes. -/
structure InternetDatagram where
  header : IPv4Header
  body : Nat
deriving DecidableEq

/-- ARP message, fields as in the `ARPMessage` struct of the repository. -/
structure ARPMessage where
  opcode : Nat
  sender_ethernet_address : Mac
  sender_ip_address : Nat
  target_ethernet_address : Mac
  target_ip_address : Nat
deriving DecidableEq

def ARPMessage.OPCODE_REQUEST : Nat := 1
def ARPMessage.OPCODE_REPLY : Nat := 2
def EthernetHeader.TYPE_IPv4 : Nat := 2048
def EthernetHeader.TYPE_ARP : Nat := 2054

/-- Frame payload: the byte-exact codecs are modelled by carrying the
parsed value; `bad` stands for any byte string neither codec accepts. -/
inductive Payload where
  | ipv4 (d : InternetDatagram)
  | arp (a : ARPMessage)
  | bad
deriving DecidableEq

/-- Result of the IPv4 serializer on a datagram. -/
def serialize (d : InternetDatagram) : Payload := Payload.ipv4 d

/-- Result of the ARP serializer on a message. -/
def serializeArp (a : ARPMessage) : Payload := Payload.arp a

structure EthernetHeader where
  src : Mac
  dst : Mac
  type : Nat
deriving DecidableEq

structure EthernetFrame where
  header : EthernetHeader
  payload : Payload
deriving DecidableEq

/-- `NetworkInterface::ARPTableEntry`. -/
structure ARPTableEntry where
  complete_entry : Bool
  ip_address : Nat
  mac_address : Mac
  ttl : Int
deriving DecidableEq

/-- `NetworkInterface::IPQueue`. -/
structure IPQueue where
  ip_address : Nat
  datagrams : List InternetDatagram
deriving DecidableEq

/-- The mutable state of a `NetworkInterface` (its two addresses never
change after construction but are carried for faithfulness). -/
structure NetworkInterface where
  ethernet_address_ : Mac
  ip_address_ : Nat
  ARPTable : List ARPTableEntry
  ReadyToBeSentQueue : List EthernetFrame
  IPQueues : List IPQueue
deriving DecidableEq

/-- The constructor: both vectors start empty. -/
def initInterface (mac : Mac) (ip : Nat) : NetworkInterface :=
  { ethernet_address_ := mac, ip_address_ := ip,
    ARPTable := [], ReadyToBeSentQueue := [], IPQueues := [] }

/-- `NetworkInterface::makeArp`. -/
def makeArp (opcode : Nat) (sender_ethernet_address : Mac) (sender_ip_address : Nat)
    (target_ethernet_address : Mac) (target_ip_address : Nat) : ARPMessage :=
  { opcode := opcode,
    sender_ethernet_address := sender_ethernet_address,
    sender_ip_address := sender_ip_address,
    target_ethernet_address := target_ethernet_address,
    target_ip_address := target_ip_address }

/-- `NetworkInterface::makeFrame`. -/
def makeFrame (src : Mac) (dst : Mac) (ty : Nat) (payload : Payload) : EthernetFrame :=
  { header := { src := src, dst := dst, type := ty }, payload := payload }

/-- Common shape of `isEntryInARPTable` / `isEntryInIPQueues`: scan the
list in order and return the first element whose key equals `ip`,
together with its index.  `none` is the C++ outcome `found = 0`,
`index = -1`. -/
def lookupIp (f : α → Nat) (ip : Nat) : List α → Option (Nat × α)
  | [] => none
  | x :: rest =>
    if f x = ip then some (0, x)
    else
      match lookupIp f ip rest with
      | none => none
      | some (i, e) => some (i + 1, e)

/-- `NetworkInterface::isEntryInARPTable` (the `found` code 1 vs 2 is
recovered from the `complete_entry` flag of the returned entry). -/
def isEntryInARPTable (ip : Nat) (tbl : List ARPTableEntry) : Option (Nat × ARPTableEntry) :=
  lookupIp ARPTableEntry.ip_address ip tbl

/-- `NetworkInterface::isEntryInIPQueues`. -/
def isEntryInIPQueues (ip : Nat) (qs : List IPQueue) : Option (Nat × IPQueue) :=
  lookupIp IPQueue.ip_address ip qs

/-- `NetworkInterface::send_datagram`.  `none` models the `exit(1)`
sanity-check failures. -/
def send_datagram (st : NetworkInterface) (dgram : InternetDatagram)
    (next_hop : Nat) : Option NetworkInterface :=
  let next_hop_ip_address := next_hop
  match isEntryInARPTable next_hop_ip_address st.ARPTable with
  | some (_i, e) =>
    if e.complete_entry then
      -- Entry is found and complete (found = 2)
      some { st with ReadyToBeSentQueue := st.ReadyToBeSentQueue ++
        [makeFrame st.ethernet_address_ e.mac_address EthernetHeader.TYPE_IPv4
          (serialize dgram)] }
    else
      -- Entry is found but incomplete (found = 1)
      match isEntryInIPQueues next_hop_ip_address st.IPQueues with
      | none => none
      | some (j, q) =>
        let q' : IPQueue := { q with datagrams := q.datagrams ++ [dgram] }
        some { st with IPQueues := st.IPQueues.set j q' }
  | none =>
    -- Entry is not found (found = 0)
    match isEntryInIPQueues next_hop_ip_address st.IPQueues with
    | some _ => none
    | none =>
      some { st with
        ARPTable := st.ARPTable ++
          [{ complete_entry := false, ip_address := next_hop_ip_address,
             mac_address := 0, ttl := 5000 }],
        IPQueues := st.IPQueues ++
          [{ ip_address := next_hop_ip_address, datagrams := [dgram] }],
        ReadyToBeSentQueue := st.ReadyToBeSentQueue ++
          [makeFrame st.ethernet_address_ ETHERNET_BROADCAST EthernetHeader.TYPE_ARP
            (serializeArp (makeArp ARPMessage.OPCODE_REQUEST st.ethernet_address_
              st.ip_address_ 0 next_hop_ip_address))] }

/-- `NetworkInterface::recv_frame`.  The returned pair is (new state,
optional surfaced datagram); `none` models `exit(1)`. -/
def recv_frame (st : NetworkInterface) (frame : EthernetFrame) :
    Option (NetworkInterface × Option InternetDatagram) :=
  if ¬(frame.header.dst = st.ethernet_address_ ∨ frame.header.dst = ETHERNET_BROADCAST) then
    some (st, none)
  else if frame.header.type = EthernetHeader.TYPE_IPv4 then
    match frame.payload with
    | Payload.ipv4 dgram => some (st, some dgram)
    | _ => some (st, none)
  else if frame.header.type = EthernetHeader.TYPE_ARP then
    match frame.payload with
    | Payload.arp arp =>
      let sender_ethernet_address := arp.sender_ethernet_address
      let sender_ip_address := arp.sender_ip_address
      -- STEP 1: update the ARP cache table (and IP queues)
      let st1? : Option NetworkInterface :=
        match isEntryInARPTable sender_ip_address st.ARPTable,
              isEntryInIPQueues sender_ip_address st.IPQueues with
        | some (i, e), qres =>
          if e.complete_entry then
            -- Case: entry is found and complete
            match qres with
            | some _ => none
            | none => some { st with ARPTable := st.ARPTable.set i ({ e with ttl := 30000 }) }
          else
            -- Case: entry is found but incomplete
            match qres with
            | none => none
            | some (j, q) =>
              some { st with
                ARPTable := st.ARPTable.set i
                  ({ e with mac_address := sender_ethernet_address,
                            complete_entry := true, ttl := 30000 }),
                ReadyToBeSentQueue := st.ReadyToBeSentQueue ++
                  q.datagrams.map (fun d =>
                    makeFrame st.ethernet_address_ sender_ethernet_address
                      EthernetHeader.TYPE_IPv4 (serialize d)),
                IPQueues := st.IPQueues.eraseIdx j }
        | none, qres =>
          -- Case: entry is not found
          match qres with
          | some _ => none
          | none => some { st with ARPTable := st.ARPTable ++
              [{ complete_entry := true, ip_address := sender_ip_address,
                 mac_address := sender_ethernet_address, ttl := 30000 }] }
      match st1? with
      | none => none
      | some st1 =>
        -- STEP 2: reply to ARP requests that ask for our IP address
        if arp.opcode = ARPMessage.OPCODE_REQUEST then
          if arp.target_ip_address = st.ip_address_ then
            some ({ st1 with ReadyToBeSentQueue := st1.ReadyToBeSentQueue ++
              [makeFrame st.ethernet_address_ sender_ethernet_address
                EthernetHeader.TYPE_ARP
                (serializeArp (makeArp ARPMessage.OPCODE_REPLY st.ethernet_address_
                  st.ip_address_ sender_ethernet_address sender_ip_address))] }, none)
          else some (st1, none)
        else some (st1, none)
    | _ => some (st, none)
  else
    some (st, none)

/-- The body of `NetworkInterface::tick`, threading the IP queues while
scanning the ARP table in order (the C++ `erase` / `i--` idiom visits
each original entry exactly once, in order). -/
def tickGo (ms : Nat) : List ARPTableEntry → List IPQueue →
    Option (List ARPTableEntry × List IPQueue)
  | [], qs => some ([], qs)
  | e :: rest, qs =>
    let e' : ARPTableEntry := { e with ttl := e.ttl - (ms : Int) }
    if e'.ttl ≤ 0 then
      if e'.complete_entry then
        tickGo ms rest qs
      else
        match isEntryInIPQueues e'.ip_address qs with
        | none => none
        | some (j, _) => tickGo ms rest (qs.eraseIdx j)
    else
      match tickGo ms rest qs with
      | none => none
      | some (tbl', qs') => some (e' :: tbl', qs')

/-- `NetworkInterface::tick`; `none` models the `exit(1)` sanity check. -/
def tick (st : NetworkInterface) (ms_since_last_tick : Nat) : Option NetworkInterface :=
  match tickGo ms_since_last_tick st.ARPTable st.IPQueues with
  | none => none
  | some (tbl', qs') => some { st with ARPTable := tbl', IPQueues := qs' }

/-- `NetworkInterface::maybe_send`: pop the head of the TX queue. -/
def maybe_send (st : NetworkInterface) : NetworkInterface × Option EthernetFrame :=
  match st.ReadyToBeSentQueue with
  | [] => (st, none)
  | f :: rest => ({ st with ReadyToBeSentQueue := rest }, some f)

/-! ### The cache/queue correspondence invariant -/

/-- The pending-entry / pending-queue correspondence: keys are unique on
both sides, every incomplete (Pending) cache entry has a queue for its
IP, and every queue belongs to an incomplete cache entry. -/
def Inv (st : NetworkInterface) : Prop :=
  (st.ARPTable.map ARPTableEntry.ip_address).Nodup ∧
  (st.IPQueues.map IPQueue.ip_address).Nodup ∧
  (∀ e ∈ st.ARPTable, e.complete_entry = false →
    ∃ q ∈ st.IPQueues, q.ip_address = e.ip_address) ∧
  (∀ q ∈ st.IPQueues, ∃ e ∈ st.ARPTable, e.ip_address = q.ip_address ∧ e.complete_entry = false)

instance (st : NetworkInterface) : Decidable (Inv st) := by
  unfold Inv; infer_instance

/-- The frames STEP 2 of `recv_frame` appends to TX: one ARP REPLY when
the message is a REQUEST targeting our own IP, otherwise nothing. -/
def replyList (st : NetworkInterface) (arp : ARPMessage) : List EthernetFrame :=
  if arp.opcode = ARPMessage.OPCODE_REQUEST ∧ arp.target_ip_address = st.ip_address_ then
    [makeFrame st.ethernet_address_ arp.sender_ethernet_address EthernetHeader.TYPE_ARP
      (serializeArp (makeArp ARPMessage.OPCODE_REPLY st.ethernet_address_ st.ip_address_
        arp.sender_ethernet_address arp.sender_ip_address))]
  else []

/-- TTL decrement applied to every entry by `tick` (the `ttl` field is a
C++ `int`; the subtraction is on `Int`). -/
def decTTL (ms : Nat) (e : ARPTableEntry) : ARPTableEntry :=
  { e with ttl := e.ttl - (ms : Int) }

/-- An entry survives `tick` iff its decremented TTL is still positive. -/
def keepEntry (e : ARPTableEntry) : Bool := decide (0 < e.ttl)

/-- Does `tick(ms)` remove a Pending entry with this IP (thereby erasing
its queue)? -/
def removedPendingIp (ms : Nat) (tbl : List ARPTableEntry) (ip : Nat) : Bool :=
  tbl.any (fun e =>
    decide (e.ip_address = ip) && !e.complete_entry && decide (e.ttl - (ms : Int) ≤ 0))

/-- One externally visible operation on a `NetworkInterface`. -/
inductive Op where
  | send (dgram : InternetDatagram) (next_hop : Nat)
  | recv (frame : EthernetFrame)
  | tick (ms : Nat)
  | msend

/-- Apply one operation; `none` models process termination by a failed
sanity check. -/
def applyOp (st : NetworkInterface) : Op → Option NetworkInterface
  | Op.send d nh => send_datagram st d nh
  | Op.recv f => (recv_frame st f).map Prod.fst
  | Op.tick ms => tick st ms
  | Op.msend => some (maybe_send st).fst

/-- Run a finite sequence of operations from a state. -/
def runOps (st : NetworkInterface) : List Op → Option NetworkInterface
  | [] => some st
  | op :: rest =>
    match applyOp st op with
    | none => none
    | some st' => runOps st' rest

/-- MAC stored for the sender after an ARP frame is processed: a prior
Resolved entry keeps its MAC; otherwise the sender MAC is learned. -/
def learnedMac (st : NetworkInterface) (arp : ARPMessage) : Mac :=
  match isEntryInARPTable arp.sender_ip_address st.ARPTable with
  | some (_, e) => if e.complete_entry then e.mac_address else arp.sender_ethernet_address
  | none => arp.sender_ethernet_address

/-- `Router::RoutingTableEntry` (`routePrefix` models the C++ field
`route_prefix`). -/
structure RoutingTableEntry where
  routePrefix : Nat
  prefix_length : Nat
  next_hop : Option Nat
  interface_num : Nat
deriving DecidableEq

/-- The C++ default constructor of `RoutingTableEntry`. -/
def RoutingTableEntry.default : RoutingTableEntry :=
  { routePrefix := 0, prefix_length := 0, next_hop := none, interface_num := 0 }

/-- `Router::isPrefixMatch`.  The mask is `~0u << (32 - prefix_length)`
in 32-bit arithmetic, i.e. `(4294967295 <<< (32 - pl)) % 2^32`, with the
`pl = 0` and `pl = 32` special cases exactly as in the source. -/
def isPrefixMatch (ip_address1 ip_address2 : Nat) (prefix_length : Nat) : Bool :=
  if prefix_length = 0 then true
  else
    let mask : Nat :=
      if prefix_length = 32 then 4294967295
      else (4294967295 <<< (32 - prefix_length)) % 4294967296
    (ip_address1 &&& mask) == (ip_address2 &&& mask)

/-- The LPM scan loop of `Router::route`: fold over the table carrying
the running `(longest_prefix_length, table_entry)` pair. -/
def lpmScan (dst : Nat) :
    List RoutingTableEntry → Int × RoutingTableEntry → Int × RoutingTableEntry
  | [], acc => acc
  | e :: rest, acc =>
    if isPrefixMatch dst e.routePrefix e.prefix_length = true ∧
        (e.prefix_length : Int) > acc.fst then
      lpmScan dst rest ((e.prefix_length : Int), e)
    else
      lpmScan dst rest acc

/-- The LPM decision: scan the whole table starting from
`longest_prefix_length = -999` and a default-constructed entry. -/
def lpm (rt : List RoutingTableEntry) (dst : Nat) : Int × RoutingTableEntry :=
  lpmScan dst rt (-999, RoutingTableEntry.default)

/-- Modelled from the spec: the mask whose top `prefix_length` bits are
set, all-zero when `prefix_length = 0` (for comparison with the mask of
`isPrefixMatch`). -/
def maskSpec (prefix_length : Nat) : Nat := 2 ^ 32 - 2 ^ (32 - prefix_length)

/-- `AsyncNetworkInterface`: the base interface plus the queue of
received datagrams (the C++ class obtains `base` by inheritance). -/
structure AsyncNetworkInterface where
  base : NetworkInterface
  datagrams_in_ : List InternetDatagram
deriving DecidableEq

/-- `AsyncNetworkInterface::maybe_receive`. -/
def maybe_receive (a : AsyncNetworkInterface) :
    AsyncNetworkInterface × Option InternetDatagram :=
  match a.datagrams_in_ with
  | [] => (a, none)
  | d :: rest => ({ a with datagrams_in_ := rest }, some d)

/-- `IPv4Header::compute_checksum`: the checksum algorithm is an
external collaborator; it is abstracted as a function `chk` of the
non-checksum header fields. -/
def compute_checksum (chk : Nat → Nat → Nat) (h : IPv4Header) : IPv4Header :=
  { h with checksum := chk h.dst h.ttl }

/-- The per-datagram body of `Router::route`: LPM decision, drop on no
match, TTL check, decrement and checksum recomputation, forward through
`send_datagram` on the chosen interface.  `none` models `exit(1)`
inside `send_datagram` (and an out-of-range interface index, which in
C++ would be undefined behaviour). -/
def processDatagram (chk : Nat → Nat → Nat) (rt : List RoutingTableEntry)
    (ifs : List AsyncNetworkInterface) (datagram : InternetDatagram) :
    Option (List AsyncNetworkInterface) :=
  let scan := lpm rt datagram.header.dst
  let longest_prefix_length := scan.fst
  let table_entry := scan.snd
  if longest_prefix_length ≥ 0 then
    if datagram.header.ttl > 1 then
      let d' : InternetDatagram :=
        { datagram with header :=
            compute_checksum chk { datagram.header with ttl := datagram.header.ttl - 1 } }
      let nh : Nat :=
        match table_entry.next_hop with
        | some a => a
        | none => d'.header.dst
      match ifs[table_entry.interface_num]? with
      | none => none
      | some a =>
        match send_datagram a.base d' nh with
        | none => none
        | some st' => some (ifs.set table_entry.interface_num { a with base := st' })
    else
      some ifs
  else
    some ifs

/-- Drain a snapshot of the received-datagram queue of one interface through
`processDatagram`, in order. -/
def drainList (chk : Nat → Nat → Nat) (rt : List RoutingTableEntry) :
    List AsyncNetworkInterface → List InternetDatagram →
    Option (List AsyncNetworkInterface)
  | ifs, [] => some ifs
  | ifs, d :: rest =>
    match processDatagram chk rt ifs d with
    | none => none
    | some ifs' => drainList chk rt ifs' rest

/-- The interface loop of `Router::route`, by index from `i`, with `k`
interfaces left to visit. -/
def routeAux (chk : Nat → Nat → Nat) (rt : List RoutingTableEntry) :
    Nat → Nat → List AsyncNetworkInterface → Option (List AsyncNetworkInterface)
  | _, 0, ifs => some ifs
  | i, k + 1, ifs =>
    match ifs[i]? with
    | none => some ifs
    | some a =>
      let pending := a.datagrams_in_
      let ifs1 := ifs.set i { a with datagrams_in_ := [] }
      match drainList chk rt ifs1 pending with
      | none => none
      | some ifs2 => routeAux chk rt (i + 1) k ifs2

/-- `Router::route`: drain every interface in index order.  Since
`send_datagram` never pushes into any `datagrams_in_`, draining the
snapshot of each queue is equivalent to the C++ loop that repeatedly
calls `maybe_receive` until it is empty. -/
def route (chk : Nat → Nat → Nat) (rt : List RoutingTableEntry)
    (ifs : List AsyncNetworkInterface) : Option (List AsyncNetworkInterface) :=
  routeAux chk rt 0 ifs.length ifs

/-! ### Basic facts about the first-match lookup -/

theorem lookupIp_none_iff {α : Type} (f : α → Nat) (ip : Nat) (l : List α) :
    lookupIp f ip l = none ↔ ∀ x ∈ l, ¬ f x = ip := by
  induction l with
  | nil => simp [lookupIp]
  | cons x rest ih =>
    by_cases hx : f x = ip
    · simp [lookupIp, hx]
    · cases hrec : lookupIp f ip rest with
      | none =>
        simp only [lookupIp, if_neg hx, hrec, List.mem_cons]
        constructor
        · intro _ y hy
          rcases hy with hy | hy
          · subst hy; exact hx
          · exact (ih.mp hrec) y hy
        · intro _; trivial
      | some p =>
        simp only [lookupIp, if_neg hx, hrec]
        constructor
        · intro h; cases h
        · intro h
          exact absurd (ih.mpr (fun y hy => h y (List.mem_cons_of_mem x hy))) (by simp [hrec])

theorem lookupIp_some_decomp {α : Type} {f : α → Nat} {ip : Nat} :
    ∀ {l : List α} {i : Nat} {e : α}, lookupIp f ip l = some (i, e) →
      ∃ l₁ l₂, l = l₁ ++ e :: l₂ ∧ i = l₁.length ∧ (∀ x ∈ l₁, ¬ f x = ip) ∧ f e = ip := by
  intro l
  induction l with
  | nil => intro i e h; simp [lookupIp] at h
  | cons x rest ih =>
    intro i e h
    by_cases hx : f x = ip
    · simp only [lookupIp, if_pos hx, Option.some.injEq, Prod.mk.injEq] at h
      exact ⟨[], rest, by simp [← h.2, h.1], by simp [← h.1], by simp, by rw [← h.2]; exact hx⟩
    · simp only [lookupIp, if_neg hx] at h
      cases hrec : lookupIp f ip rest with
      | none => rw [hrec] at h; cases h
      | some p =>
        rw [hrec] at h
        obtain ⟨i', e'⟩ := p
        simp only [Option.some.injEq, Prod.mk.injEq] at h
        obtain ⟨l₁, l₂, hdec, hlen, hl₁, hfe⟩ := ih hrec
        refine ⟨x :: l₁, l₂, ?_, ?_, ?_, ?_⟩
        · simp [hdec, ← h.2]
        · simp [← h.1, hlen]
        · intro y hy
          rcases List.mem_cons.mp hy with hy | hy
          · subst hy; exact hx
          · exact hl₁ y hy
        · rw [← h.2]; exact hfe

theorem lookupIp_some_mem {α : Type} {f : α → Nat} {ip : Nat} {l : List α} {i : Nat} {e : α}
    (h : lookupIp f ip l = some (i, e)) : e ∈ l ∧ f e = ip := by
  obtain ⟨l₁, l₂, hdec, _, _, hfe⟩ := lookupIp_some_decomp h
  exact ⟨by simp [hdec], hfe⟩

theorem lookupIp_isSome_of_mem {α : Type} {f : α → Nat} {ip : Nat} {l : List α} {x : α}
    (hx : x ∈ l) (hfx : f x = ip) : ∃ i e, lookupIp f ip l = some (i, e) := by
  cases h : lookupIp f ip l with
  | none => exact absurd hfx ((lookupIp_none_iff f ip l).mp h x hx)
  | some p => exact ⟨p.1, p.2, by simp [h]⟩

theorem set_length_append {α : Type} (l₁ : List α) (e : α) (l₂ : List α) (e' : α) :
    (l₁ ++ e :: l₂).set l₁.length e' = l₁ ++ e' :: l₂ := by
  induction l₁ with
  | nil => simp
  | cons a t ih => simp [List.set, ih]

theorem eraseIdx_length_append {α : Type} (l₁ : List α) (e : α) (l₂ : List α) :
    (l₁ ++ e :: l₂).eraseIdx l₁.length = l₁ ++ l₂ := by
  induction l₁ with
  | nil => simp
  | cons a t ih => simp [List.eraseIdx, ih]

/-- With a duplicate-free key list, two members with the same key are equal. -/
theorem eq_of_nodup_map_key {α : Type} {f : α → Nat} {l : List α}
    (h : (l.map f).Nodup) {x y : α} (hx : x ∈ l) (hy : y ∈ l) (hxy : f x = f y) : x = y := by
  exact List.inj_on_of_nodup_map h hx hy hxy

theorem inv_no_queue_of_complete {st : NetworkInterface} (h : Inv st) {e : ARPTableEntry}
    (he : e ∈ st.ARPTable) (hc : e.complete_entry = true) :
    ∀ q ∈ st.IPQueues, ¬ q.ip_address = e.ip_address := by
  intro q hq hip
  obtain ⟨e', he', hip', hp'⟩ := h.2.2.2 q hq
  have heq : e = e' := eq_of_nodup_map_key h.1 he he' (by rw [hip', hip])
  rw [heq, hp'] at hc
  cases hc

theorem inv_queue_none_of_complete {st : NetworkInterface} (h : Inv st) {ip : Nat}
    {i : Nat} {e : ARPTableEntry}
    (hA : isEntryInARPTable ip st.ARPTable = some (i, e)) (hc : e.complete_entry = true) :
    isEntryInIPQueues ip st.IPQueues = none := by
  obtain ⟨hmem, hip⟩ := lookupIp_some_mem hA
  rw [isEntryInIPQueues, lookupIp_none_iff]
  intro q hq hipq
  exact inv_no_queue_of_complete h hmem hc q hq (by rw [hipq, hip])

theorem inv_no_queue_of_absent {st : NetworkInterface} (h : Inv st) {ip : Nat}
    (habs : isEntryInARPTable ip st.ARPTable = none) :
    isEntryInIPQueues ip st.IPQueues = none := by
  rw [isEntryInIPQueues, lookupIp_none_iff]
  intro q hq hipq
  obtain ⟨e, he, hip, _⟩ := h.2.2.2 q hq
  exact (lookupIp_none_iff _ _ _).mp habs e he (by rw [hip, hipq])

theorem inv_queue_lookup_of_pending {st : NetworkInterface} (h : Inv st) {e : ARPTableEntry}
    (he : e ∈ st.ARPTable) (hp : e.complete_entry = false) :
    ∃ j q, isEntryInIPQueues e.ip_address st.IPQueues = some (j, q) ∧
      q.ip_address = e.ip_address := by
  obtain ⟨q, hq, hip⟩ := h.2.2.1 e he hp
  obtain ⟨j, q', hlk⟩ := lookupIp_isSome_of_mem hq hip
  exact ⟨j, q', hlk, (lookupIp_some_mem hlk).2⟩

/-! ### Claim C1: the three-way case split of send_datagram -/

/-- Claim C1.  For every call `send_datagram(dgram, next_hop)` on a state
satisfying the pending-correspondence invariant: with a Resolved cache
entry, exactly one IPv4 frame (src = own MAC, dst = cached MAC,
payload = serialized dgram) is appended to TX and nothing else changes;
with a Pending entry, the datagram is appended at the tail of the queue
for that IP, no ARP request is emitted and the TTL is untouched; with the IP
absent, a Pending entry (TTL 5000) and a queue containing exactly the
datagram are created and one broadcast ARP REQUEST (sender = own MAC/IP,
target MAC zero, target IP = next hop) is appended to TX. -/
theorem send_datagram_cases (st : NetworkInterface) (d : InternetDatagram) (nh : Nat)
    (hInv : Inv st) :
    (∀ i e, isEntryInARPTable nh st.ARPTable = some (i, e) → e.complete_entry = true →
      send_datagram st d nh = some { st with
        ReadyToBeSentQueue := st.ReadyToBeSentQueue ++
          [makeFrame st.ethernet_address_ e.mac_address EthernetHeader.TYPE_IPv4
            (serialize d)] }) ∧
    (∀ i e, isEntryInARPTable nh st.ARPTable = some (i, e) → e.complete_entry = false →
      ∃ j q, isEntryInIPQueues nh st.IPQueues = some (j, q) ∧ q.ip_address = nh ∧
        send_datagram st d nh = some { st with
          IPQueues := st.IPQueues.set j ({ q with datagrams := q.datagrams ++ [d] }) }) ∧
    (isEntryInARPTable nh st.ARPTable = none →
      send_datagram st d nh = some { st with
        ARPTable := st.ARPTable ++
          [{ complete_entry := false, ip_address := nh, mac_address := 0, ttl := 5000 }],
        IPQueues := st.IPQueues ++ [{ ip_address := nh, datagrams := [d] }],
        ReadyToBeSentQueue := st.ReadyToBeSentQueue ++
          [makeFrame st.ethernet_address_ ETHERNET_BROADCAST EthernetHeader.TYPE_ARP
            (serializeArp (makeArp ARPMessage.OPCODE_REQUEST st.ethernet_address_
              st.ip_address_ 0 nh))] }) := by
  refine ⟨?_, ?_, ?_⟩
  · intro i e hA hc
    simp [send_datagram, hA, hc]
  · intro i e hA hc
    obtain ⟨hmem, hip⟩ := lookupIp_some_mem hA
    obtain ⟨j, q, hQ, hqip⟩ := inv_queue_lookup_of_pending hInv hmem hc
    rw [hip] at hQ hqip
    refine ⟨j, q, hQ, hqip, ?_⟩
    simp [send_datagram, hA, hc, hQ]
  · intro hA
    have hq := inv_no_queue_of_absent hInv hA
    simp [send_datagram, hA, hq]

/-- Concrete instantiation of the C1 theorem (absent-entry case on a
freshly constructed interface). -/
theorem send_datagram_cases_witness :
    Inv (initInterface 1 2) ∧
    send_datagram (initInterface 1 2) { header := { dst := 10, ttl := 64, checksum := 0 }, body := 0 } 5 =
      some { initInterface 1 2 with
        ARPTable := (initInterface 1 2).ARPTable ++
          [{ complete_entry := false, ip_address := 5, mac_address := 0, ttl := 5000 }],
        IPQueues := (initInterface 1 2).IPQueues ++
          [{ ip_address := 5,
             datagrams := [{ header := { dst := 10, ttl := 64, checksum := 0 }, body := 0 }] }],
        ReadyToBeSentQueue := (initInterface 1 2).ReadyToBeSentQueue ++
          [makeFrame (initInterface 1 2).ethernet_address_ ETHERNET_BROADCAST
            EthernetHeader.TYPE_ARP
            (serializeArp (makeArp ARPMessage.OPCODE_REQUEST
              (initInterface 1 2).ethernet_address_ (initInterface 1 2).ip_address_ 0 5))] } :=
  ⟨by decide,
   (send_datagram_cases (initInterface 1 2)
     { header := { dst := 10, ttl := 64, checksum := 0 }, body := 0 } 5 (by decide)).2.2
     (by decide)⟩

/-! ### Characterization of recv_frame on each kind of frame -/

/-- Frames whose destination MAC is neither ours nor broadcast are
dropped without any state change. -/
theorem recv_frame_not_for_us {st : NetworkInterface} {frame : EthernetFrame}
    (hacc : ¬(frame.header.dst = st.ethernet_address_ ∨ frame.header.dst = ETHERNET_BROADCAST)) :
    recv_frame st frame = some (st, none) := by
  simp [recv_frame, hacc]

/-- Accepted IPv4 frames surface the parsed datagram (or nothing, on
parse failure) and leave the state unchanged. -/
theorem recv_frame_ipv4 {st : NetworkInterface} {frame : EthernetFrame}
    (hacc : frame.header.dst = st.ethernet_address_ ∨ frame.header.dst = ETHERNET_BROADCAST)
    (hty : frame.header.type = EthernetHeader.TYPE_IPv4) :
    recv_frame st frame = some (st,
      match frame.payload with
      | Payload.ipv4 d => some d
      | _ => none) := by
  cases hpl : frame.payload <;> simp [recv_frame, hacc, hty, hpl]

/-- Accepted frames of a type other than IPv4 and ARP are ignored. -/
theorem recv_frame_other_type {st : NetworkInterface} {frame : EthernetFrame}
    (hty1 : ¬frame.header.type = EthernetHeader.TYPE_IPv4)
    (hty2 : ¬frame.header.type = EthernetHeader.TYPE_ARP) :
    recv_frame st frame = some (st, none) := by
  by_cases hacc : frame.header.dst = st.ethernet_address_ ∨ frame.header.dst = ETHERNET_BROADCAST
  · simp [recv_frame, hacc, hty1, hty2]
  · simp [recv_frame, hacc]

/-- Accepted ARP frames whose payload does not parse are ignored. -/
theorem recv_frame_arp_bad {st : NetworkInterface} {frame : EthernetFrame}
    (hty : frame.header.type = EthernetHeader.TYPE_ARP)
    (hpl : ∀ a, ¬frame.payload = Payload.arp a) :
    recv_frame st frame = some (st, none) := by
  by_cases hacc : frame.header.dst = st.ethernet_address_ ∨ frame.header.dst = ETHERNET_BROADCAST
  · cases hp : frame.payload with
    | ipv4 d =>
      simp [recv_frame, hacc, hty, hp, EthernetHeader.TYPE_IPv4, EthernetHeader.TYPE_ARP]
    | arp a => exact absurd hp (hpl a)
    | bad =>
      simp [recv_frame, hacc, hty, hp, EthernetHeader.TYPE_IPv4, EthernetHeader.TYPE_ARP]
  · simp [recv_frame, hacc]

/-- Accepted parse-valid ARP frame, sender already Resolved: the cached
TTL is reset to 30000 (MAC untouched) and STEP 2 may append a reply. -/
theorem recv_frame_arp_complete {st : NetworkInterface} {frame : EthernetFrame}
    {arp : ARPMessage} {i : Nat} {e : ARPTableEntry}
    (hacc : frame.header.dst = st.ethernet_address_ ∨ frame.header.dst = ETHERNET_BROADCAST)
    (hty : frame.header.type = EthernetHeader.TYPE_ARP)
    (hpl : frame.payload = Payload.arp arp)
    (hA : isEntryInARPTable arp.sender_ip_address st.ARPTable = some (i, e))
    (hc : e.complete_entry = true)
    (hq : isEntryInIPQueues arp.sender_ip_address st.IPQueues = none) :
    recv_frame st frame = some ({ st with
      ARPTable := st.ARPTable.set i ({ e with ttl := 30000 }),
      ReadyToBeSentQueue := st.ReadyToBeSentQueue ++ replyList st arp }, none) := by
  by_cases hreq : arp.opcode = ARPMessage.OPCODE_REQUEST
  · by_cases htgt : arp.target_ip_address = st.ip_address_
    · simp [recv_frame, hacc, hty, hpl, hA, hc, hq, replyList, hreq, htgt,
        EthernetHeader.TYPE_IPv4, EthernetHeader.TYPE_ARP]
    · simp [recv_frame, hacc, hty, hpl, hA, hc, hq, replyList, hreq, htgt,
        EthernetHeader.TYPE_IPv4, EthernetHeader.TYPE_ARP]
  · simp [recv_frame, hacc, hty, hpl, hA, hc, hq, replyList, hreq,
      EthernetHeader.TYPE_IPv4, EthernetHeader.TYPE_ARP]

/-- Accepted parse-valid ARP frame, sender Pending: the entry becomes
Resolved (sender MAC, TTL 30000), the pending queue is drained in FIFO
order onto TX, the queue is removed, and any reply comes after. -/
theorem recv_frame_arp_pending {st : NetworkInterface} {frame : EthernetFrame}
    {arp : ARPMessage} {i : Nat} {e : ARPTableEntry} {j : Nat} {q : IPQueue}
    (hacc : frame.header.dst = st.ethernet_address_ ∨ frame.header.dst = ETHERNET_BROADCAST)
    (hty : frame.header.type = EthernetHeader.TYPE_ARP)
    (hpl : frame.payload = Payload.arp arp)
    (hA : isEntryInARPTable arp.sender_ip_address st.ARPTable = some (i, e))
    (hc : e.complete_entry = false)
    (hq : isEntryInIPQueues arp.sender_ip_address st.IPQueues = some (j, q)) :
    recv_frame st frame = some ({ st with
      ARPTable := st.ARPTable.set i
        ({ e with mac_address := arp.sender_ethernet_address,
                  complete_entry := true, ttl := 30000 }),
      ReadyToBeSentQueue := st.ReadyToBeSentQueue ++
        q.datagrams.map (fun d =>
          makeFrame st.ethernet_address_ arp.sender_ethernet_address
            EthernetHeader.TYPE_IPv4 (serialize d)) ++ replyList st arp,
      IPQueues := st.IPQueues.eraseIdx j }, none) := by
  by_cases hreq : arp.opcode = ARPMessage.OPCODE_REQUEST
  · by_cases htgt : arp.target_ip_address = st.ip_address_
    · simp [recv_frame, hacc, hty, hpl, hA, hc, hq, replyList, hreq, htgt,
        EthernetHeader.TYPE_IPv4, EthernetHeader.TYPE_ARP, List.append_assoc]
    · simp [recv_frame, hacc, hty, hpl, hA, hc, hq, replyList, hreq, htgt,
        EthernetHeader.TYPE_IPv4, EthernetHeader.TYPE_ARP]
  · simp [recv_frame, hacc, hty, hpl, hA, hc, hq, replyList, hreq,
      EthernetHeader.TYPE_IPv4, EthernetHeader.TYPE_ARP]

/-- Accepted parse-valid ARP frame, sender absent from the cache: a
Resolved entry (sender MAC, TTL 30000) is appended, and STEP 2 may
append a reply. -/
theorem recv_frame_arp_absent {st : NetworkInterface} {frame : EthernetFrame}
    {arp : ARPMessage}
    (hacc : frame.header.dst = st.ethernet_address_ ∨ frame.header.dst = ETHERNET_BROADCAST)
    (hty : frame.header.type = EthernetHeader.TYPE_ARP)
    (hpl : frame.payload = Payload.arp arp)
    (hA : isEntryInARPTable arp.sender_ip_address st.ARPTable = none)
    (hq : isEntryInIPQueues arp.sender_ip_address st.IPQueues = none) :
    recv_frame st frame = some ({ st with
      ARPTable := st.ARPTable ++
        [{ complete_entry := true, ip_address := arp.sender_ip_address,
           mac_address := arp.sender_ethernet_address, ttl := 30000 }],
      ReadyToBeSentQueue := st.ReadyToBeSentQueue ++ replyList st arp }, none) := by
  by_cases hreq : arp.opcode = ARPMessage.OPCODE_REQUEST
  · by_cases htgt : arp.target_ip_address = st.ip_address_
    · simp [recv_frame, hacc, hty, hpl, hA, hq, replyList, hreq, htgt,
        EthernetHeader.TYPE_IPv4, EthernetHeader.TYPE_ARP]
    · simp [recv_frame, hacc, hty, hpl, hA, hq, replyList, hreq, htgt,
        EthernetHeader.TYPE_IPv4, EthernetHeader.TYPE_ARP]
  · simp [recv_frame, hacc, hty, hpl, hA, hq, replyList, hreq,
      EthernetHeader.TYPE_IPv4, EthernetHeader.TYPE_ARP]

/-! ### Preservation of the invariant by every operation -/

theorem nodup_key_decomp {α : Type} {f : α → Nat} {l₁ l₂ : List α} {e : α}
    (h : ((l₁ ++ e :: l₂).map f).Nodup) : ∀ x, x ∈ l₁ ∨ x ∈ l₂ → ¬ f x = f e := by
  rw [List.map_append, List.map_cons, List.nodup_append] at h
  intro x hx hfx
  rcases hx with hx | hx
  · exact h.2.2 (List.mem_map_of_mem f hx) (by rw [hfx]; exact List.mem_cons_self _ _)
  · exact (List.nodup_cons.mp h.2.1).1 (by rw [← hfx]; exact List.mem_map_of_mem f hx)

theorem inv_preserved_ready {st : NetworkInterface} (h : Inv st) (R : List EthernetFrame) :
    Inv { st with ReadyToBeSentQueue := R } := h

theorem inv_preserved_complete_set {st : NetworkInterface} (h : Inv st)
    {ip i : Nat} {e : ARPTableEntry}
    (hA : isEntryInARPTable ip st.ARPTable = some (i, e)) (hc : e.complete_entry = true)
    (R : List EthernetFrame) :
    Inv { st with ARPTable := st.ARPTable.set i ({ e with ttl := 30000 }),
                  ReadyToBeSentQueue := R } := by
  obtain ⟨l₁, l₂, hdec, hi, hl₁, hip⟩ := lookupIp_some_decomp hA
  obtain ⟨h1, h2, h3, h4⟩ := h
  rw [hdec] at h1 h3 h4 ⊢
  rw [hi, set_length_append]
  refine ⟨?_, h2, ?_, ?_⟩
  · simpa using h1
  · intro x hx hpend
    rcases List.mem_append.mp hx with hx | hx
    · exact h3 x (List.mem_append_left _ hx) hpend
    · rcases List.mem_cons.mp hx with hx | hx
      · rw [hx] at hpend; simp [hc] at hpend
      · exact h3 x (List.mem_append_right _ (List.mem_cons_of_mem _ hx)) hpend
  · intro qq hq
    obtain ⟨y, hy, hyip, hypend⟩ := h4 qq hq
    have hyne : ¬y = e := by
      intro hcon; rw [hcon, hc] at hypend; cases hypend
    rcases List.mem_append.mp hy with hy | hy
    · exact ⟨y, List.mem_append_left _ hy, hyip, hypend⟩
    · rcases List.mem_cons.mp hy with hy | hy
      · exact absurd hy hyne
      · exact ⟨y, List.mem_append_right _ (List.mem_cons_of_mem _ hy), hyip, hypend⟩

theorem inv_preserved_pending_resolve {st : NetworkInterface} (h : Inv st)
    {ip i : Nat} {e : ARPTableEntry} {j : Nat} {q : IPQueue}
    (hA : isEntryInARPTable ip st.ARPTable = some (i, e))
    (hQ : isEntryInIPQueues ip st.IPQueues = some (j, q))
    (M : Mac) (R : List EthernetFrame) :
    Inv { st with
      ARPTable := st.ARPTable.set i
        ({ e with mac_address := M, complete_entry := true, ttl := 30000 }),
      ReadyToBeSentQueue := R,
      IPQueues := st.IPQueues.eraseIdx j } := by
  obtain ⟨l₁, l₂, hdec, hi, hl₁, hip⟩ := lookupIp_some_decomp hA
  obtain ⟨m₁, m₂, hqdec, hj, hm₁, hqip⟩ := lookupIp_some_decomp hQ
  obtain ⟨h1, h2, h3, h4⟩ := h
  rw [hdec] at h1 h3 h4 ⊢
  rw [hqdec] at h2 h3 h4 ⊢
  rw [hi, set_length_append, hj, eraseIdx_length_append]
  have harpkey : ∀ x : ARPTableEntry, x ∈ l₁ ∨ x ∈ l₂ → ¬x.ip_address = ip := by
    intro x hx hfx
    exact nodup_key_decomp h1 x hx (by rw [hfx, hip])
  have hqkey : ∀ x : IPQueue, x ∈ m₁ ∨ x ∈ m₂ → ¬x.ip_address = ip := by
    intro x hx hfx
    exact nodup_key_decomp h2 x hx (by rw [hfx, hqip])
  refine ⟨by simpa using h1, ?_, ?_, ?_⟩
  · have hsub : List.Sublist (m₁ ++ m₂) (m₁ ++ q :: m₂) :=
      List.Sublist.append_left (List.sublist_cons_self q m₂) m₁
    exact List.Nodup.sublist (hsub.map _) h2
  · intro x hx hpend
    rcases List.mem_append.mp hx with hx | hx
    · obtain ⟨qq, hqq, hqqip⟩ := h3 x (List.mem_append_left _ hx) hpend
      have hxip : ¬x.ip_address = ip := harpkey x (Or.inl hx)
      rcases List.mem_append.mp hqq with hqq | hqq
      · exact ⟨qq, List.mem_append_left _ hqq, hqqip⟩
      · rcases List.mem_cons.mp hqq with hqq | hqq
        · exact absurd (by rw [← hqqip, hqq, hqip]) hxip
        · exact ⟨qq, List.mem_append_right _ hqq, hqqip⟩
    · rcases List.mem_cons.mp hx with hx | hx
      · rw [hx] at hpend; simp at hpend
      · obtain ⟨qq, hqq, hqqip⟩ := h3 x (List.mem_append_right _ (List.mem_cons_of_mem _ hx)) hpend
        have hxip : ¬x.ip_address = ip := harpkey x (Or.inr hx)
        rcases List.mem_append.mp hqq with hqq | hqq
        · exact ⟨qq, List.mem_append_left _ hqq, hqqip⟩
        · rcases List.mem_cons.mp hqq with hqq | hqq
          · exact absurd (by rw [← hqqip, hqq, hqip]) hxip
          · exact ⟨qq, List.mem_append_right _ hqq, hqqip⟩
  · intro qq hqq
    have hqqold : qq ∈ m₁ ++ q :: m₂ := by
      rcases List.mem_append.mp hqq with hqq | hqq
      · exact List.mem_append_left _ hqq
      · exact List.mem_append_right _ (List.mem_cons_of_mem _ hqq)
    have hqqip : ¬qq.ip_address = ip := by
      rcases List.mem_append.mp hqq with hqq | hqq
      · exact hqkey qq (Or.inl hqq)
      · exact hqkey qq (Or.inr hqq)
    obtain ⟨y, hy, hyip, hypend⟩ := h4 qq hqqold
    have hyne : ¬y = e := by
      intro hcon
      rw [hcon, hip] at hyip
      exact hqqip hyip.symm
    rcases List.mem_append.mp hy with hy | hy
    · exact ⟨y, List.mem_append_left _ hy, hyip, hypend⟩
    · rcases List.mem_cons.mp hy with hy | hy
      · exact absurd hy hyne
      · exact ⟨y, List.mem_append_right _ (List.mem_cons_of_mem _ hy), hyip, hypend⟩

theorem inv_preserved_absent_insert {st : NetworkInterface} (h : Inv st) {ip : Nat}
    (hA : isEntryInARPTable ip st.ARPTable = none) (M : Mac) (R : List EthernetFrame) :
    Inv { st with
      ARPTable := st.ARPTable ++
        [{ complete_entry := true, ip_address := ip, mac_address := M, ttl := 30000 }],
      ReadyToBeSentQueue := R } := by
  obtain ⟨h1, h2, h3, h4⟩ := h
  have hnot : ∀ x ∈ st.ARPTable, ¬x.ip_address = ip :=
    (lookupIp_none_iff _ _ _).mp hA
  refine ⟨?_, h2, ?_, ?_⟩
  · rw [List.map_append, List.nodup_append]
    refine ⟨h1, by simp, ?_⟩
    intro a ha hb
    simp only [List.map_cons, List.map_nil, List.mem_singleton] at hb
    obtain ⟨x, hx, hfx⟩ := List.mem_map.mp ha
    exact hnot x hx (by rw [hfx, hb])
  · intro x hx hpend
    rcases List.mem_append.mp hx with hx | hx
    · exact h3 x hx hpend
    · rcases List.mem_cons.mp hx with hx | hx
      · rw [hx] at hpend; simp at hpend
      · cases hx
  · intro qq hqq
    obtain ⟨y, hy, hyip, hypend⟩ := h4 qq hqq
    exact ⟨y, List.mem_append_left _ hy, hyip, hypend⟩

theorem inv_preserved_queue_set {st : NetworkInterface} (h : Inv st) {ip j : Nat} {q : IPQueue}
    (hQ : isEntryInIPQueues ip st.IPQueues = some (j, q)) (d : InternetDatagram) :
    Inv { st with IPQueues := st.IPQueues.set j ({ q with datagrams := q.datagrams ++ [d] }) } := by
  obtain ⟨m₁, m₂, hqdec, hj, hm₁, hqip⟩ := lookupIp_some_decomp hQ
  obtain ⟨h1, h2, h3, h4⟩ := h
  rw [hqdec] at h2 h3 h4 ⊢
  rw [hj, set_length_append]
  refine ⟨h1, by simpa using h2, ?_, ?_⟩
  · intro x hx hpend
    obtain ⟨qq, hqq, hqqip⟩ := h3 x hx hpend
    rcases List.mem_append.mp hqq with hqq | hqq
    · exact ⟨qq, List.mem_append_left _ hqq, hqqip⟩
    · rcases List.mem_cons.mp hqq with hqq | hqq
      · refine ⟨{ q with datagrams := q.datagrams ++ [d] },
          List.mem_append_right _ (List.mem_cons_self _ _), ?_⟩
        exact hqq ▸ hqqip
      · exact ⟨qq, List.mem_append_right _ (List.mem_cons_of_mem _ hqq), hqqip⟩
  · intro qq hqq
    rcases List.mem_append.mp hqq with hqq | hqq
    · exact h4 qq (List.mem_append_left _ hqq)
    · rcases List.mem_cons.mp hqq with hqq | hqq
      · obtain ⟨y, hy, hyip, hypend⟩ := h4 q (List.mem_append_right _ (List.mem_cons_self _ _))
        exact ⟨y, hy, by rw [hqq]; exact hyip, hypend⟩
      · exact h4 qq (List.mem_append_right _ (List.mem_cons_of_mem _ hqq))

theorem inv_preserved_send_absent {st : NetworkInterface} (h : Inv st) {ip : Nat}
    (hA : isEntryInARPTable ip st.ARPTable = none)
    (hq : isEntryInIPQueues ip st.IPQueues = none)
    (d : InternetDatagram) (R : List EthernetFrame) :
    Inv { st with
      ARPTable := st.ARPTable ++
        [{ complete_entry := false, ip_address := ip, mac_address := 0, ttl := 5000 }],
      IPQueues := st.IPQueues ++ [{ ip_address := ip, datagrams := [d] }],
      ReadyToBeSentQueue := R } := by
  obtain ⟨h1, h2, h3, h4⟩ := h
  have hnotA : ∀ x ∈ st.ARPTable, ¬x.ip_address = ip := (lookupIp_none_iff _ _ _).mp hA
  have hnotQ : ∀ x ∈ st.IPQueues, ¬x.ip_address = ip := (lookupIp_none_iff _ _ _).mp hq
  refine ⟨?_, ?_, ?_, ?_⟩
  · rw [List.map_append, List.nodup_append]
    refine ⟨h1, by simp, ?_⟩
    intro a ha hb
    simp only [List.map_cons, List.map_nil, List.mem_singleton] at hb
    obtain ⟨x, hx, hfx⟩ := List.mem_map.mp ha
    exact hnotA x hx (by rw [hfx, hb])
  · rw [List.map_append, List.nodup_append]
    refine ⟨h2, by simp, ?_⟩
    intro a ha hb
    simp only [List.map_cons, List.map_nil, List.mem_singleton] at hb
    obtain ⟨x, hx, hfx⟩ := List.mem_map.mp ha
    exact hnotQ x hx (by rw [hfx, hb])
  · intro x hx hpend
    rcases List.mem_append.mp hx with hx | hx
    · obtain ⟨qq, hqq, hqqip⟩ := h3 x hx hpend
      exact ⟨qq, List.mem_append_left _ hqq, hqqip⟩
    · rcases List.mem_cons.mp hx with hx | hx
      · refine ⟨{ ip_address := ip, datagrams := [d] },
          List.mem_append_right _ (List.mem_cons_self _ _), ?_⟩
        rw [hx]
      · cases hx
  · intro qq hqq
    rcases List.mem_append.mp hqq with hqq | hqq
    · obtain ⟨y, hy, hyip, hypend⟩ := h4 qq hqq
      exact ⟨y, List.mem_append_left _ hy, hyip, hypend⟩
    · rcases List.mem_cons.mp hqq with hqq | hqq
      · refine ⟨{ complete_entry := false, ip_address := ip, mac_address := 0, ttl := 5000 },
          List.mem_append_right _ (List.mem_cons_self _ _), ?_, rfl⟩
        rw [hqq]
      · cases hqq

/-! ### Characterization and invariant preservation for tick -/

theorem tickGo_cons_expired_complete {ms : Nat} {e : ARPTableEntry}
    {rest : List ARPTableEntry} {qs : List IPQueue}
    (h1 : e.ttl - (ms : Int) ≤ 0) (h2 : e.complete_entry = true) :
    tickGo ms (e :: rest) qs = tickGo ms rest qs := by
  simp only [tickGo]
  rw [if_pos h1, if_pos h2]

theorem tickGo_cons_expired_pending {ms : Nat} {e : ARPTableEntry}
    {rest : List ARPTableEntry} {qs : List IPQueue} {j : Nat} {qq : IPQueue}
    (h1 : e.ttl - (ms : Int) ≤ 0) (h2 : e.complete_entry = false)
    (h3 : isEntryInIPQueues e.ip_address qs = some (j, qq)) :
    tickGo ms (e :: rest) qs = tickGo ms rest (qs.eraseIdx j) := by
  simp only [tickGo]
  rw [if_pos h1, if_neg (by rw [h2]; simp), h3]

theorem tickGo_cons_alive {ms : Nat} {e : ARPTableEntry}
    {rest : List ARPTableEntry} {qs : List IPQueue}
    (h1 : ¬e.ttl - (ms : Int) ≤ 0) :
    tickGo ms (e :: rest) qs =
      match tickGo ms rest qs with
      | none => none
      | some (tbl', qs') => some (decTTL ms e :: tbl', qs') := by
  simp only [tickGo, decTTL]
  rw [if_neg h1]

theorem removedPendingIp_cons_skip {ms : Nat} {e : ARPTableEntry}
    {rest : List ARPTableEntry} {a : Nat}
    (h : (decide (e.ip_address = a) && !e.complete_entry &&
      decide (e.ttl - (ms : Int) ≤ 0)) = false) :
    removedPendingIp ms (e :: rest) a = removedPendingIp ms rest a := by
  rw [removedPendingIp, removedPendingIp, List.any_cons, h, Bool.false_or]

theorem tickGo_spec (ms : Nat) : ∀ (tbl : List ARPTableEntry) (qs : List IPQueue),
    (tbl.map ARPTableEntry.ip_address).Nodup →
    (qs.map IPQueue.ip_address).Nodup →
    (∀ e ∈ tbl, e.complete_entry = false → ∃ q ∈ qs, q.ip_address = e.ip_address) →
    tickGo ms tbl qs = some
      ((tbl.map (decTTL ms)).filter keepEntry,
       qs.filter (fun q => !removedPendingIp ms tbl q.ip_address)) := by
  intro tbl
  induction tbl with
  | nil =>
    intro qs _ _ _
    simp [tickGo, removedPendingIp]
  | cons e rest ih =>
    intro qs h1 h2 h3
    rw [List.map_cons, List.nodup_cons] at h1
    by_cases hle : e.ttl - (ms : Int) ≤ 0
    · by_cases hcomp : e.complete_entry = true
      · rw [tickGo_cons_expired_complete hle hcomp]
        rw [ih qs h1.2 h2 (fun x hx hpend => h3 x (List.mem_cons_of_mem _ hx) hpend)]
        have harp : ((e :: rest).map (decTTL ms)).filter keepEntry =
            (rest.map (decTTL ms)).filter keepEntry := by
          rw [List.map_cons, List.filter_cons]
          have hk : keepEntry (decTTL ms e) = false := by
            simp only [keepEntry, decTTL, decide_eq_false_iff_not]
            omega
          simp [hk]
        have hqs : qs.filter (fun q => !removedPendingIp ms (e :: rest) q.ip_address) =
            qs.filter (fun q => !removedPendingIp ms rest q.ip_address) := by
          refine List.filter_congr ?_
          intro a _
          rw [removedPendingIp_cons_skip (by rw [hcomp]; simp)]
        rw [harp, hqs]
      · have hpend : e.complete_entry = false := by
          cases hee : e.complete_entry
          · rfl
          · exact absurd hee hcomp
        obtain ⟨q0, hq0, hq0ip⟩ := h3 e (List.mem_cons_self _ _) hpend
        obtain ⟨j, qq, hlk⟩ := lookupIp_isSome_of_mem hq0 hq0ip
        rw [tickGo_cons_expired_pending hle hpend hlk]
        obtain ⟨m₁, m₂, hqdec, hj, hm₁, hqqip⟩ := lookupIp_some_decomp hlk
        have hqkey : ∀ x : IPQueue, x ∈ m₁ ∨ x ∈ m₂ → ¬x.ip_address = e.ip_address := by
          intro x hx hfx
          rw [hqdec] at h2
          exact nodup_key_decomp h2 x hx (by rw [hfx, hqqip])
        have h2' : ((m₁ ++ m₂).map IPQueue.ip_address).Nodup := by
          have hsub : List.Sublist (m₁ ++ m₂) (m₁ ++ qq :: m₂) :=
            List.Sublist.append_left (List.sublist_cons_self qq m₂) m₁
          rw [hqdec] at h2
          exact List.Nodup.sublist (hsub.map _) h2
        have h3' : ∀ x ∈ rest, x.complete_entry = false →
            ∃ q ∈ m₁ ++ m₂, q.ip_address = x.ip_address := by
          intro x hx hxpend
          obtain ⟨qx, hqx, hqxip⟩ := h3 x (List.mem_cons_of_mem _ hx) hxpend
          have hxip : ¬x.ip_address = e.ip_address := by
            intro hcon
            exact h1.1 (by rw [← hcon]; exact List.mem_map_of_mem _ hx)
          rw [hqdec] at hqx
          rcases List.mem_append.mp hqx with hqx | hqx
          · exact ⟨qx, List.mem_append_left _ hqx, hqxip⟩
          · rcases List.mem_cons.mp hqx with hqx | hqx
            · exact absurd (by rw [← hqxip, hqx, hqqip] : x.ip_address = e.ip_address) hxip
            · exact ⟨qx, List.mem_append_right _ hqx, hqxip⟩
        rw [hqdec, hj, eraseIdx_length_append]
        rw [ih (m₁ ++ m₂) h1.2 h2' h3']
        have harp : ((e :: rest).map (decTTL ms)).filter keepEntry =
            (rest.map (decTTL ms)).filter keepEntry := by
          rw [List.map_cons, List.filter_cons]
          have hk : keepEntry (decTTL ms e) = false := by
            simp only [keepEntry, decTTL, decide_eq_false_iff_not]
            omega
          simp [hk]
        have hqs : (m₁ ++ qq :: m₂).filter
              (fun q => !removedPendingIp ms (e :: rest) q.ip_address) =
            (m₁ ++ m₂).filter (fun q => !removedPendingIp ms rest q.ip_address) := by
          rw [List.filter_append, List.filter_cons, List.filter_append]
          have hqqrem : removedPendingIp ms (e :: rest) qq.ip_address = true := by
            rw [removedPendingIp, List.any_eq_true]
            refine ⟨e, List.mem_cons_self _ _, ?_⟩
            rw [Bool.and_eq_true, Bool.and_eq_true]
            refine ⟨⟨?_, ?_⟩, ?_⟩
            · simp [hqqip]
            · rw [hpend]; rfl
            · simp [hle]
          have hcong₁ : m₁.filter (fun q => !removedPendingIp ms (e :: rest) q.ip_address) =
              m₁.filter (fun q => !removedPendingIp ms rest q.ip_address) := by
            refine List.filter_congr ?_
            intro a ha
            rw [removedPendingIp_cons_skip]
            have hd : decide (e.ip_address = a.ip_address) = false := by
              simp only [decide_eq_false_iff_not]
              intro hcon
              exact hqkey a (Or.inl ha) hcon.symm
            rw [hd, Bool.false_and, Bool.false_and]
          have hcong₂ : m₂.filter (fun q => !removedPendingIp ms (e :: rest) q.ip_address) =
              m₂.filter (fun q => !removedPendingIp ms rest q.ip_address) := by
            refine List.filter_congr ?_
            intro a ha
            rw [removedPendingIp_cons_skip]
            have hd : decide (e.ip_address = a.ip_address) = false := by
              simp only [decide_eq_false_iff_not]
              intro hcon
              exact hqkey a (Or.inr ha) hcon.symm
            rw [hd, Bool.false_and, Bool.false_and]
          rw [hqqrem, hcong₁, hcong₂]
          simp
        rw [harp, hqs]
    · rw [tickGo_cons_alive hle]
      rw [ih qs h1.2 h2 (fun x hx hpend => h3 x (List.mem_cons_of_mem _ hx) hpend)]
      have harp : ((e :: rest).map (decTTL ms)).filter keepEntry =
          decTTL ms e :: (rest.map (decTTL ms)).filter keepEntry := by
        rw [List.map_cons, List.filter_cons]
        have hk : keepEntry (decTTL ms e) = true := by
          simp only [keepEntry, decTTL, decide_eq_true_eq]
          omega
        simp [hk]
      have hqs : qs.filter (fun q => !removedPendingIp ms (e :: rest) q.ip_address) =
          qs.filter (fun q => !removedPendingIp ms rest q.ip_address) := by
        refine List.filter_congr ?_
        intro a _
        rw [removedPendingIp_cons_skip]
        have hd : decide (e.ttl - (ms : Int) ≤ 0) = false := by
          simp only [decide_eq_false_iff_not]
          exact hle
        rw [hd, Bool.and_false]
      rw [harp, hqs]

theorem tick_char (st : NetworkInterface) (ms : Nat) (hInv : Inv st) :
    tick st ms = some { st with
      ARPTable := (st.ARPTable.map (decTTL ms)).filter keepEntry,
      IPQueues := st.IPQueues.filter
        (fun q => !removedPendingIp ms st.ARPTable q.ip_address) } := by
  unfold tick
  rw [tickGo_spec ms st.ARPTable st.IPQueues hInv.1 hInv.2.1 hInv.2.2.1]

theorem inv_preserved_tick (st : NetworkInterface) (ms : Nat) (hInv : Inv st) :
    Inv { st with
      ARPTable := (st.ARPTable.map (decTTL ms)).filter keepEntry,
      IPQueues := st.IPQueues.filter
        (fun q => !removedPendingIp ms st.ARPTable q.ip_address) } := by
  obtain ⟨h1, h2, h3, h4⟩ := hInv
  have hipf : ARPTableEntry.ip_address ∘ decTTL ms = ARPTableEntry.ip_address :=
    funext (fun e => rfl)
  refine ⟨?_, ?_, ?_, ?_⟩
  · have hsub : List.Sublist
        (((st.ARPTable.map (decTTL ms)).filter keepEntry).map ARPTableEntry.ip_address)
        ((st.ARPTable.map (decTTL ms)).map ARPTableEntry.ip_address) :=
      List.Sublist.map _ (List.filter_sublist _)
    refine List.Nodup.sublist hsub ?_
    rw [List.map_map, hipf]
    exact h1
  · have hsub : List.Sublist
        ((st.IPQueues.filter
          (fun q => !removedPendingIp ms st.ARPTable q.ip_address)).map IPQueue.ip_address)
        (st.IPQueues.map IPQueue.ip_address) :=
      List.Sublist.map _ (List.filter_sublist _)
    exact List.Nodup.sublist hsub h2
  · intro x hx hpend
    rw [List.mem_filter] at hx
    obtain ⟨y, hy, hyx⟩ := List.mem_map.mp hx.1
    have hypend : y.complete_entry = false := by rw [← hpend, ← hyx]; rfl
    have hykeep : (0 : Int) < y.ttl - (ms : Int) := by
      have hk := hx.2
      rw [← hyx] at hk
      simpa [keepEntry, decTTL] using hk
    obtain ⟨q, hq, hqip⟩ := h3 y hy hypend
    refine ⟨q, ?_, by rw [hqip, ← hyx]; rfl⟩
    rw [List.mem_filter]
    refine ⟨hq, ?_⟩
    have hrem : removedPendingIp ms st.ARPTable q.ip_address = false := by
      rw [removedPendingIp, List.any_eq_false]
      intro z hz
      by_cases hzip : z.ip_address = q.ip_address
      · have hzy : z = y := eq_of_nodup_map_key h1 hz hy (by rw [hzip, hqip])
        subst hzy
        have hd : decide (z.ttl - (ms : Int) ≤ 0) = false := by
          simp only [decide_eq_false_iff_not]
          omega
        rw [hd, Bool.and_false]
        simp
      · have hd : decide (z.ip_address = q.ip_address) = false := by
          simp only [decide_eq_false_iff_not]
          exact hzip
        rw [hd, Bool.false_and, Bool.false_and]
        simp
    rw [hrem]
    rfl
  · intro q hq
    rw [List.mem_filter] at hq
    obtain ⟨y, hy, hyip, hypend⟩ := h4 q hq.1
    have hysurv : (0 : Int) < y.ttl - (ms : Int) := by
      by_contra hcon
      have hrem : removedPendingIp ms st.ARPTable q.ip_address = true := by
        rw [removedPendingIp, List.any_eq_true]
        refine ⟨y, hy, ?_⟩
        rw [Bool.and_eq_true, Bool.and_eq_true]
        refine ⟨⟨?_, ?_⟩, ?_⟩
        · simp [hyip]
        · rw [hypend]; rfl
        · simp only [decide_eq_true_eq]
          omega
      rw [hrem] at hq
      simp at hq
    refine ⟨decTTL ms y, ?_, by rw [← hyip]; rfl, by rw [← hypend]; rfl⟩
    rw [List.mem_filter]
    refine ⟨List.mem_map_of_mem _ hy, ?_⟩
    simp only [keepEntry, decTTL, decide_eq_true_eq]
    exact hysurv

/-! ### Totality: no operation on an invariant state can hit exit(1) -/

theorem send_datagram_total (st : NetworkInterface) (d : InternetDatagram) (nh : Nat)
    (hInv : Inv st) : ∃ st', send_datagram st d nh = some st' ∧ Inv st' := by
  cases hA : isEntryInARPTable nh st.ARPTable with
  | none =>
    have hq := inv_no_queue_of_absent hInv hA
    have heq : send_datagram st d nh = some { st with
        ARPTable := st.ARPTable ++
          [{ complete_entry := false, ip_address := nh, mac_address := 0, ttl := 5000 }],
        IPQueues := st.IPQueues ++ [{ ip_address := nh, datagrams := [d] }],
        ReadyToBeSentQueue := st.ReadyToBeSentQueue ++
          [makeFrame st.ethernet_address_ ETHERNET_BROADCAST EthernetHeader.TYPE_ARP
            (serializeArp (makeArp ARPMessage.OPCODE_REQUEST st.ethernet_address_
              st.ip_address_ 0 nh))] } := by
      simp [send_datagram, hA, hq]
    exact ⟨_, heq, inv_preserved_send_absent hInv hA hq d _⟩
  | some p =>
    obtain ⟨i, e⟩ := p
    cases hce : e.complete_entry with
    | true =>
      have heq : send_datagram st d nh = some { st with
          ReadyToBeSentQueue := st.ReadyToBeSentQueue ++
            [makeFrame st.ethernet_address_ e.mac_address EthernetHeader.TYPE_IPv4
              (serialize d)] } := by
        simp [send_datagram, hA, hce]
      exact ⟨_, heq, inv_preserved_ready hInv _⟩
    | false =>
      obtain ⟨hmem, hip⟩ := lookupIp_some_mem hA
      obtain ⟨j, q, hQ, hqip⟩ := inv_queue_lookup_of_pending hInv hmem hce
      rw [hip] at hQ
      have heq : send_datagram st d nh = some { st with
          IPQueues := st.IPQueues.set j ({ q with datagrams := q.datagrams ++ [d] }) } := by
        simp [send_datagram, hA, hce, hQ]
      exact ⟨_, heq, inv_preserved_queue_set hInv hQ d⟩

theorem recv_frame_total (st : NetworkInterface) (frame : EthernetFrame)
    (hInv : Inv st) : ∃ st' od, recv_frame st frame = some (st', od) ∧ Inv st' := by
  by_cases hacc : frame.header.dst = st.ethernet_address_ ∨ frame.header.dst = ETHERNET_BROADCAST
  case neg => exact ⟨st, none, recv_frame_not_for_us hacc, hInv⟩
  case pos =>
    by_cases hty4 : frame.header.type = EthernetHeader.TYPE_IPv4
    · exact ⟨st, _, recv_frame_ipv4 hacc hty4, hInv⟩
    by_cases htyA : frame.header.type = EthernetHeader.TYPE_ARP
    case neg => exact ⟨st, none, recv_frame_other_type hty4 htyA, hInv⟩
    case pos =>
      cases hpl : frame.payload with
      | ipv4 d => exact ⟨st, none, recv_frame_arp_bad htyA (by simp [hpl]), hInv⟩
      | bad => exact ⟨st, none, recv_frame_arp_bad htyA (by simp [hpl]), hInv⟩
      | arp arp =>
        cases hA : isEntryInARPTable arp.sender_ip_address st.ARPTable with
        | none =>
          have hq := inv_no_queue_of_absent hInv hA
          exact ⟨_, none, recv_frame_arp_absent hacc htyA hpl hA hq,
            inv_preserved_absent_insert hInv hA _ _⟩
        | some p =>
          obtain ⟨i, e⟩ := p
          cases hce : e.complete_entry with
          | true =>
            have hq := inv_queue_none_of_complete hInv hA hce
            exact ⟨_, none, recv_frame_arp_complete hacc htyA hpl hA hce hq,
              inv_preserved_complete_set hInv hA hce _⟩
          | false =>
            obtain ⟨hmem, hip⟩ := lookupIp_some_mem hA
            obtain ⟨j, q, hQ, hqip⟩ := inv_queue_lookup_of_pending hInv hmem hce
            rw [hip] at hQ
            exact ⟨_, none, recv_frame_arp_pending hacc htyA hpl hA hce hQ,
              inv_preserved_pending_resolve hInv hA hQ _ _⟩

theorem inv_maybe_send (st : NetworkInterface) (hInv : Inv st) :
    Inv (maybe_send st).fst := by
  cases hq : st.ReadyToBeSentQueue with
  | nil => simpa [maybe_send, hq] using hInv
  | cons f rest => simpa [maybe_send, hq] using inv_preserved_ready hInv rest

theorem inv_init (mac ip : Nat) : Inv (initInterface mac ip) := by
  refine ⟨by simp [initInterface], by simp [initInterface], ?_, ?_⟩
  · intro e he
    simp [initInterface] at he
  · intro q hq
    simp [initInterface] at hq

theorem applyOp_total (st : NetworkInterface) (op : Op) (hInv : Inv st) :
    ∃ st', applyOp st op = some st' ∧ Inv st' := by
  cases op with
  | send d nh =>
    obtain ⟨st', heq, hi⟩ := send_datagram_total st d nh hInv
    exact ⟨st', heq, hi⟩
  | recv f =>
    obtain ⟨st', od, heq, hi⟩ := recv_frame_total st f hInv
    exact ⟨st', by simp [applyOp, heq], hi⟩
  | tick ms =>
    exact ⟨_, by simp [applyOp, tick_char st ms hInv], inv_preserved_tick st ms hInv⟩
  | msend =>
    exact ⟨(maybe_send st).fst, rfl, inv_maybe_send st hInv⟩

theorem runOps_total : ∀ (ops : List Op) (st : NetworkInterface), Inv st →
    ∃ st', runOps st ops = some st' ∧ Inv st' := by
  intro ops
  induction ops with
  | nil => exact fun st h => ⟨st, rfl, h⟩
  | cons op rest ih =>
    intro st h
    obtain ⟨st1, heq1, h1⟩ := applyOp_total st op h
    obtain ⟨st2, heq2, h2⟩ := ih st1 h1
    exact ⟨st2, by simp [runOps, heq1, heq2], h2⟩

theorem filter_key_decomp {α : Type} {f : α → Nat} {P : Nat} {l₁ l₂ : List α} {e : α}
    (h₁ : ∀ x ∈ l₁, ¬f x = P) (h₂ : ∀ x ∈ l₂, ¬f x = P) (he : f e = P) :
    (l₁ ++ e :: l₂).filter (fun x => decide (f x = P)) = [e] := by
  rw [List.filter_append, List.filter_cons]
  have hnil₁ : l₁.filter (fun x => decide (f x = P)) = [] := by
    rw [List.filter_eq_nil_iff]
    intro a ha
    simpa using h₁ a ha
  have hnil₂ : l₂.filter (fun x => decide (f x = P)) = [] := by
    rw [List.filter_eq_nil_iff]
    intro a ha
    simpa using h₂ a ha
  simp [he, hnil₁, hnil₂]

/-! ### Claim C6: tick decrements, expires, and drops pending queues -/

/-- Claim C6.  `tick(ms)` subtracts `ms` from the TTL of every cache entry and
removes exactly the entries whose new TTL is ≤ 0; the queue of each
removed Pending entry is removed with it (its datagrams dropped, no frame
emitted), all remaining queues and the TX queue are untouched, and the
surviving entries are the decremented ones with positive TTL. -/
theorem tick_spec (st : NetworkInterface) (ms : Nat) (hInv : Inv st) :
    ∃ st', tick st ms = some st' ∧
      st'.ARPTable = (st.ARPTable.map (decTTL ms)).filter keepEntry ∧
      st'.IPQueues = st.IPQueues.filter
        (fun q => !removedPendingIp ms st.ARPTable q.ip_address) ∧
      st'.ReadyToBeSentQueue = st.ReadyToBeSentQueue ∧
      st'.ethernet_address_ = st.ethernet_address_ ∧
      st'.ip_address_ = st.ip_address_ :=
  ⟨_, tick_char st ms hInv, rfl, rfl, rfl, rfl, rfl⟩

/-- Concrete instantiation of the C6 theorem: one Resolved entry expires
(4000 − 4500 ≤ 0) while a Pending entry and its queue survive. -/
theorem tick_spec_witness :
    Inv { ethernet_address_ := 1, ip_address_ := 2,
          ARPTable := [{ complete_entry := true, ip_address := 5, mac_address := 7, ttl := 4000 },
                       { complete_entry := false, ip_address := 6, mac_address := 0, ttl := 5000 }],
          ReadyToBeSentQueue := [], IPQueues := [{ ip_address := 6, datagrams := [] }] } ∧
    ∃ st', tick
        { ethernet_address_ := 1, ip_address_ := 2,
          ARPTable := [{ complete_entry := true, ip_address := 5, mac_address := 7, ttl := 4000 },
                       { complete_entry := false, ip_address := 6, mac_address := 0, ttl := 5000 }],
          ReadyToBeSentQueue := [], IPQueues := [{ ip_address := 6, datagrams := [] }] } 4500 =
        some st' ∧ st'.ReadyToBeSentQueue = [] := by
  refine ⟨by decide, ?_⟩
  obtain ⟨st', heq, _, _, hready, _⟩ := tick_spec
    { ethernet_address_ := 1, ip_address_ := 2,
      ARPTable := [{ complete_entry := true, ip_address := 5, mac_address := 7, ttl := 4000 },
                   { complete_entry := false, ip_address := 6, mac_address := 0, ttl := 5000 }],
      ReadyToBeSentQueue := [], IPQueues := [{ ip_address := 6, datagrams := [] }] }
    4500 (by decide)
  exact ⟨st', heq, hready⟩

/-! ### Claim C8: the pending correspondence holds in every reachable state -/

/-- Claim C8.  From the freshly constructed interface, any finite
sequence of `send_datagram` / `recv_frame` / `tick` / `maybe_send` calls
runs to completion (`some`, i.e. no sanity-check `exit(1)` is ever
reached), and in the resulting state, for every IP: a Pending cache
entry exists iff a PendingQueue exists for that IP, and a Resolved entry
excludes any PendingQueue for that IP. -/
theorem reachable_inv (mac ip : Nat) (ops : List Op) :
    ∃ st', runOps (initInterface mac ip) ops = some st' ∧
      ∀ a : Nat,
        ((∃ e ∈ st'.ARPTable, e.ip_address = a ∧ e.complete_entry = false) ↔
          (∃ q ∈ st'.IPQueues, q.ip_address = a)) ∧
        ((∃ e ∈ st'.ARPTable, e.ip_address = a ∧ e.complete_entry = true) →
          ¬∃ q ∈ st'.IPQueues, q.ip_address = a) := by
  obtain ⟨st', heq, hInv⟩ := runOps_total ops _ (inv_init mac ip)
  refine ⟨st', heq, ?_⟩
  intro a
  constructor
  · constructor
    · rintro ⟨e, he, hip, hpend⟩
      obtain ⟨q, hq, hqip⟩ := hInv.2.2.1 e he hpend
      exact ⟨q, hq, by rw [hqip, hip]⟩
    · rintro ⟨q, hq, hqip⟩
      obtain ⟨e, he, heip, hepend⟩ := hInv.2.2.2 q hq
      exact ⟨e, he, by rw [heip, hqip], hepend⟩
  · rintro ⟨e, he, hip, hcomp⟩ ⟨q, hq, hqip⟩
    exact inv_no_queue_of_complete hInv he hcomp q hq (by rw [hqip, hip])

/-- Concrete instantiation of the C8 theorem on a short operation
sequence (an unresolved send, a resolving ARP frame, a tick, a pop). -/
theorem reachable_inv_witness :
    ∃ st', runOps (initInterface 1 2)
        [Op.send { header := { dst := 9, ttl := 64, checksum := 0 }, body := 0 } 9,
         Op.recv (makeFrame 3 1 EthernetHeader.TYPE_ARP
           (Payload.arp { opcode := 2, sender_ethernet_address := 3, sender_ip_address := 9,
                          target_ethernet_address := 1, target_ip_address := 2 })),
         Op.tick 40000, Op.msend] = some st' ∧
      ∀ a : Nat,
        ((∃ e ∈ st'.ARPTable, e.ip_address = a ∧ e.complete_entry = false) ↔
          (∃ q ∈ st'.IPQueues, q.ip_address = a)) ∧
        ((∃ e ∈ st'.ARPTable, e.ip_address = a ∧ e.complete_entry = true) →
          ¬∃ q ∈ st'.IPQueues, q.ip_address = a) :=
  reachable_inv 1 2
    [Op.send { header := { dst := 9, ttl := 64, checksum := 0 }, body := 0 } 9,
     Op.recv (makeFrame 3 1 EthernetHeader.TYPE_ARP
       (Payload.arp { opcode := 2, sender_ethernet_address := 3, sender_ip_address := 9,
                      target_ethernet_address := 1, target_ip_address := 2 })),
     Op.tick 40000, Op.msend]

/-! ### Claim C2 (corrected): what the cache holds after an ARP frame -/

/-- Counterexample to claim C2 as stated: the sender IP 5 is already
Resolved with MAC 7; an ARP message carrying sender MAC 9 only refreshes
the TTL, so afterwards no entry for IP 5 carries MAC 9. -/
theorem recv_frame_keeps_old_mac_cex :
    recv_frame
      { ethernet_address_ := 1, ip_address_ := 2,
        ARPTable := [{ complete_entry := true, ip_address := 5, mac_address := 7, ttl := 100 }],
        ReadyToBeSentQueue := [], IPQueues := [] }
      (makeFrame 9 1 EthernetHeader.TYPE_ARP
        (Payload.arp { opcode := 2, sender_ethernet_address := 9, sender_ip_address := 5,
                       target_ethernet_address := 1, target_ip_address := 2 })) =
      some
        ({ ethernet_address_ := 1, ip_address_ := 2,
           ARPTable := [{ complete_entry := true, ip_address := 5, mac_address := 7,
                          ttl := 30000 }],
           ReadyToBeSentQueue := [], IPQueues := [] }, none) ∧
    ¬∃ e ∈ [({ complete_entry := true, ip_address := 5, mac_address := 7,
               ttl := 30000 } : ARPTableEntry)],
        e.ip_address = 5 ∧ e.mac_address = 9 := by
  decide

/-- Claim C2 (amended).  After an accepted parse-valid ARP frame with
sender pair (M, P), the cache holds exactly one entry for P; it is
Resolved with TTL 30000; its MAC is M when P was previously absent or
Pending, while a previously Resolved entry keeps its old MAC
(`learnedMac`). -/
theorem recv_frame_arp_cache_after (st : NetworkInterface) (frame : EthernetFrame)
    (arp : ARPMessage) (hInv : Inv st)
    (hacc : frame.header.dst = st.ethernet_address_ ∨ frame.header.dst = ETHERNET_BROADCAST)
    (hty : frame.header.type = EthernetHeader.TYPE_ARP)
    (hpl : frame.payload = Payload.arp arp) :
    ∃ st', recv_frame st frame = some (st', none) ∧
      st'.ARPTable.filter (fun e => decide (e.ip_address = arp.sender_ip_address)) =
        [{ complete_entry := true, ip_address := arp.sender_ip_address,
           mac_address := learnedMac st arp, ttl := 30000 }] := by
  cases hA : isEntryInARPTable arp.sender_ip_address st.ARPTable with
  | none =>
    have hq := inv_no_queue_of_absent hInv hA
    refine ⟨_, recv_frame_arp_absent hacc hty hpl hA hq, ?_⟩
    have hnil : st.ARPTable.filter
        (fun e => decide (e.ip_address = arp.sender_ip_address)) = [] := by
      rw [List.filter_eq_nil_iff]
      intro a ha
      simpa using (lookupIp_none_iff _ _ _).mp hA a ha
    rw [List.filter_append, hnil, List.filter_cons]
    simp [learnedMac, hA]
  | some p =>
    obtain ⟨i, e⟩ := p
    obtain ⟨ec, ei, em, et⟩ := e
    obtain ⟨l₁, l₂, hdec, hi, hl₁, hipe⟩ := lookupIp_some_decomp hA
    simp only [ARPTableEntry.ip_address] at hipe
    subst hipe
    have hl₂ : ∀ x ∈ l₂, ¬x.ip_address = arp.sender_ip_address := by
      intro x hx hfx
      have h1 := hInv.1
      rw [hdec] at h1
      exact nodup_key_decomp h1 x (Or.inr hx) hfx
    cases hec : ec with
    | true =>
      subst hec
      have hq := inv_queue_none_of_complete hInv hA rfl
      refine ⟨_, recv_frame_arp_complete hacc hty hpl hA rfl hq, ?_⟩
      rw [hdec, hi, set_length_append]
      rw [filter_key_decomp hl₁ hl₂ rfl]
      simp [learnedMac, hA]
    | false =>
      subst hec
      have hmem : (⟨false, arp.sender_ip_address, em, et⟩ : ARPTableEntry) ∈ st.ARPTable :=
        (lookupIp_some_mem hA).1
      obtain ⟨j, q, hQ, hqip⟩ := inv_queue_lookup_of_pending hInv hmem rfl
      refine ⟨_, recv_frame_arp_pending hacc hty hpl hA rfl hQ, ?_⟩
      rw [hdec, hi, set_length_append]
      rw [filter_key_decomp hl₁ hl₂ rfl]
      simp [learnedMac, hA]

/-- Concrete instantiation of the amended C2 theorem: unknown sender
(9, 5) is learned as a Resolved entry with MAC 9 and TTL 30000. -/
theorem recv_frame_arp_cache_after_witness :
    ∃ st', recv_frame (initInterface 1 2)
        (makeFrame 9 1 EthernetHeader.TYPE_ARP
          (Payload.arp { opcode := 2, sender_ethernet_address := 9, sender_ip_address := 5,
                         target_ethernet_address := 1, target_ip_address := 2 })) =
        some (st', none) ∧
      st'.ARPTable.filter (fun e => decide (e.ip_address = 5)) =
        [{ complete_entry := true, ip_address := 5,
           mac_address := learnedMac (initInterface 1 2)
             { opcode := 2, sender_ethernet_address := 9, sender_ip_address := 5,
               target_ethernet_address := 1, target_ip_address := 2 }, ttl := 30000 }] :=
  recv_frame_arp_cache_after (initInterface 1 2)
    (makeFrame 9 1 EthernetHeader.TYPE_ARP
      (Payload.arp { opcode := 2, sender_ethernet_address := 9, sender_ip_address := 5,
                     target_ethernet_address := 1, target_ip_address := 2 }))
    { opcode := 2, sender_ethernet_address := 9, sender_ip_address := 5,
      target_ethernet_address := 1, target_ip_address := 2 }
    (by decide) (Or.inl rfl) rfl rfl

/-! ### Claim C5: draining order when a Pending entry resolves -/

/-- Claim C5.  When an accepted parse-valid ARP message from sender
(M, P) arrives while P is Pending: every queued datagram of P is
appended to TX in FIFO order as an IPv4 frame {src = own MAC, dst = M,
payload = serialized datagram}, the queue of P is removed (none remains),
and any reply produced by the same call comes after all drained
frames. -/
theorem recv_frame_pending_drain_order (st : NetworkInterface) (frame : EthernetFrame)
    (arp : ARPMessage) (i : Nat) (e : ARPTableEntry) (hInv : Inv st)
    (hacc : frame.header.dst = st.ethernet_address_ ∨ frame.header.dst = ETHERNET_BROADCAST)
    (hty : frame.header.type = EthernetHeader.TYPE_ARP)
    (hpl : frame.payload = Payload.arp arp)
    (hA : isEntryInARPTable arp.sender_ip_address st.ARPTable = some (i, e))
    (hc : e.complete_entry = false) :
    ∃ j q st', isEntryInIPQueues arp.sender_ip_address st.IPQueues = some (j, q) ∧
      recv_frame st frame = some (st', none) ∧
      st'.ReadyToBeSentQueue = st.ReadyToBeSentQueue ++
        q.datagrams.map (fun d =>
          makeFrame st.ethernet_address_ arp.sender_ethernet_address
            EthernetHeader.TYPE_IPv4 (serialize d)) ++ replyList st arp ∧
      st'.IPQueues = st.IPQueues.eraseIdx j ∧
      (∀ q' ∈ st'.IPQueues, ¬q'.ip_address = arp.sender_ip_address) := by
  obtain ⟨hmem, hip⟩ := lookupIp_some_mem hA
  obtain ⟨j, q, hQ, hqip⟩ := inv_queue_lookup_of_pending hInv hmem hc
  rw [hip] at hQ hqip
  refine ⟨j, q, _, hQ, recv_frame_arp_pending hacc hty hpl hA hc hQ, rfl, rfl, ?_⟩
  obtain ⟨m₁, m₂, hqdec, hj, hm₁, _⟩ := lookupIp_some_decomp hQ
  intro q' hq' hqxip
  rw [hqdec, hj, eraseIdx_length_append] at hq'
  have h2 := hInv.2.1
  rw [hqdec] at h2
  exact nodup_key_decomp h2 q' (List.mem_append.mp hq') (by rw [hqxip, hqip])

/-- Concrete instantiation of the C5 theorem: two queued datagrams for
the Pending IP 7 are drained by a REQUEST from (9, 7). -/
theorem recv_frame_pending_drain_order_witness :
    Inv { ethernet_address_ := 1, ip_address_ := 2,
          ARPTable := [{ complete_entry := false, ip_address := 7, mac_address := 0, ttl := 5000 }],
          ReadyToBeSentQueue := [],
          IPQueues := [{ ip_address := 7,
                         datagrams := [{ header := { dst := 7, ttl := 64, checksum := 0 },
                                         body := 1 },
                                       { header := { dst := 7, ttl := 64, checksum := 0 },
                                         body := 2 }] }] } ∧
    ∃ st', recv_frame
        { ethernet_address_ := 1, ip_address_ := 2,
          ARPTable := [{ complete_entry := false, ip_address := 7, mac_address := 0, ttl := 5000 }],
          ReadyToBeSentQueue := [],
          IPQueues := [{ ip_address := 7,
                         datagrams := [{ header := { dst := 7, ttl := 64, checksum := 0 },
                                         body := 1 },
                                       { header := { dst := 7, ttl := 64, checksum := 0 },
                                         body := 2 }] }] }
        (makeFrame 9 1 EthernetHeader.TYPE_ARP
          (Payload.arp { opcode := 1, sender_ethernet_address := 9, sender_ip_address := 7,
                         target_ethernet_address := 0, target_ip_address := 2 })) =
        some (st', none) := by
  refine ⟨by decide, ?_⟩
  obtain ⟨j, q, st', _, heq, _⟩ := recv_frame_pending_drain_order
    { ethernet_address_ := 1, ip_address_ := 2,
      ARPTable := [{ complete_entry := false, ip_address := 7, mac_address := 0, ttl := 5000 }],
      ReadyToBeSentQueue := [],
      IPQueues := [{ ip_address := 7,
                     datagrams := [{ header := { dst := 7, ttl := 64, checksum := 0 },
                                     body := 1 },
                                   { header := { dst := 7, ttl := 64, checksum := 0 },
                                     body := 2 }] }] }
    (makeFrame 9 1 EthernetHeader.TYPE_ARP
      (Payload.arp { opcode := 1, sender_ethernet_address := 9, sender_ip_address := 7,
                     target_ethernet_address := 0, target_ip_address := 2 }))
    { opcode := 1, sender_ethernet_address := 9, sender_ip_address := 7,
      target_ethernet_address := 0, target_ip_address := 2 }
    0 { complete_entry := false, ip_address := 7, mac_address := 0, ttl := 5000 }
    (by decide) (Or.inl rfl) rfl rfl (by decide) rfl
  exact ⟨st', heq⟩

/-! ### Claim C7: ARP replies are sent iff a REQUEST targets our IP -/

/-- Claim C7.  For every accepted ARP frame: when the payload parses,
`recv_frame` returns no datagram and appends an ARP REPLY {sender = own
MAC/IP, target = sender pair} addressed to the sender exactly when the
message is a REQUEST whose target IP is our own (the frames preceding a
possible reply are all IPv4, so no other ARP frame is emitted); when the
payload does not parse, nothing happens and no datagram is returned. -/
theorem recv_frame_arp_reply_iff (st : NetworkInterface) (frame : EthernetFrame)
    (hInv : Inv st)
    (hacc : frame.header.dst = st.ethernet_address_ ∨ frame.header.dst = ETHERNET_BROADCAST)
    (hty : frame.header.type = EthernetHeader.TYPE_ARP) :
    (∀ arp, frame.payload = Payload.arp arp →
      ∃ st' pre, recv_frame st frame = some (st', none) ∧
        (∀ f ∈ pre, f.header.type = EthernetHeader.TYPE_IPv4) ∧
        ((arp.opcode = ARPMessage.OPCODE_REQUEST ∧ arp.target_ip_address = st.ip_address_) →
          st'.ReadyToBeSentQueue = st.ReadyToBeSentQueue ++ pre ++
            [makeFrame st.ethernet_address_ arp.sender_ethernet_address
              EthernetHeader.TYPE_ARP
              (serializeArp (makeArp ARPMessage.OPCODE_REPLY st.ethernet_address_
                st.ip_address_ arp.sender_ethernet_address arp.sender_ip_address))]) ∧
        (¬(arp.opcode = ARPMessage.OPCODE_REQUEST ∧ arp.target_ip_address = st.ip_address_) →
          st'.ReadyToBeSentQueue = st.ReadyToBeSentQueue ++ pre)) ∧
    ((∀ arp, ¬frame.payload = Payload.arp arp) →
      recv_frame st frame = some (st, none)) := by
  constructor
  · intro arp hpl
    cases hA : isEntryInARPTable arp.sender_ip_address st.ARPTable with
    | none =>
      have hq := inv_no_queue_of_absent hInv hA
      refine ⟨_, [], recv_frame_arp_absent hacc hty hpl hA hq, by simp, ?_, ?_⟩
      · intro hcond
        simp [replyList, hcond]
      · intro hcond
        simp [replyList, hcond]
    | some p =>
      obtain ⟨i, e⟩ := p
      cases hce : e.complete_entry with
      | true =>
        have hq := inv_queue_none_of_complete hInv hA hce
        refine ⟨_, [], recv_frame_arp_complete hacc hty hpl hA hce hq, by simp, ?_, ?_⟩
        · intro hcond
          simp [replyList, hcond]
        · intro hcond
          simp [replyList, hcond]
      | false =>
        obtain ⟨hmem, hip⟩ := lookupIp_some_mem hA
        obtain ⟨j, q, hQ, hqip⟩ := inv_queue_lookup_of_pending hInv hmem hce
        rw [hip] at hQ
        refine ⟨_, q.datagrams.map (fun d =>
            makeFrame st.ethernet_address_ arp.sender_ethernet_address
              EthernetHeader.TYPE_IPv4 (serialize d)),
          recv_frame_arp_pending hacc hty hpl hA hce hQ, ?_, ?_, ?_⟩
        · intro f hf
          obtain ⟨d, _, hd⟩ := List.mem_map.mp hf
          rw [← hd]
          rfl
        · intro hcond
          simp [replyList, hcond]
        · intro hcond
          simp [replyList, hcond]
  · intro hpl
    exact recv_frame_arp_bad hty hpl

/-- Concrete instantiation of the C7 theorem: a REQUEST from (9, 7)
targeting our IP 2 is answered with a reply. -/
theorem recv_frame_arp_reply_iff_witness :
    ∃ st' pre, recv_frame (initInterface 1 2)
        (makeFrame 9 1 EthernetHeader.TYPE_ARP
          (Payload.arp { opcode := 1, sender_ethernet_address := 9, sender_ip_address := 7,
                         target_ethernet_address := 0, target_ip_address := 2 })) =
        some (st', none) ∧
      (∀ f ∈ pre, f.header.type = EthernetHeader.TYPE_IPv4) ∧
      st'.ReadyToBeSentQueue = (initInterface 1 2).ReadyToBeSentQueue ++ pre ++
        [makeFrame 1 9 EthernetHeader.TYPE_ARP
          (serializeArp (makeArp ARPMessage.OPCODE_REPLY 1 2 9 7))] := by
  obtain ⟨st', pre, heq, hpre, hpos, _⟩ :=
    (recv_frame_arp_reply_iff (initInterface 1 2)
      (makeFrame 9 1 EthernetHeader.TYPE_ARP
        (Payload.arp { opcode := 1, sender_ethernet_address := 9, sender_ip_address := 7,
                       target_ethernet_address := 0, target_ip_address := 2 }))
      (by decide) (Or.inl rfl) rfl).1
    { opcode := 1, sender_ethernet_address := 9, sender_ip_address := 7,
      target_ethernet_address := 0, target_ip_address := 2 } rfl
  exact ⟨st', pre, heq, hpre, hpos ⟨rfl, rfl⟩⟩

/-! ### Claim C10: a Resolved sender only gets its TTL refreshed -/

/-- Claim C10.  When an accepted parse-valid ARP message arrives from a
sender IP that is already Resolved, the only cache change is that this
TTL of this entry is reset to 30000: the stored MAC is kept (even if the
message carries a different sender MAC), the queues are untouched, the
own addresses are unchanged, and — absent a reply obligation — the TX
queue is unchanged too. -/
theorem recv_frame_resolved_refresh_only (st : NetworkInterface) (frame : EthernetFrame)
    (arp : ARPMessage) (i : Nat) (e : ARPTableEntry) (hInv : Inv st)
    (hacc : frame.header.dst = st.ethernet_address_ ∨ frame.header.dst = ETHERNET_BROADCAST)
    (hty : frame.header.type = EthernetHeader.TYPE_ARP)
    (hpl : frame.payload = Payload.arp arp)
    (hA : isEntryInARPTable arp.sender_ip_address st.ARPTable = some (i, e))
    (hc : e.complete_entry = true) :
    ∃ st', recv_frame st frame = some (st', none) ∧
      st'.ARPTable = st.ARPTable.set i ({ e with ttl := 30000 }) ∧
      st'.IPQueues = st.IPQueues ∧
      st'.ethernet_address_ = st.ethernet_address_ ∧
      st'.ip_address_ = st.ip_address_ ∧
      (¬(arp.opcode = ARPMessage.OPCODE_REQUEST ∧ arp.target_ip_address = st.ip_address_) →
        st'.ReadyToBeSentQueue = st.ReadyToBeSentQueue) := by
  have hq := inv_queue_none_of_complete hInv hA hc
  refine ⟨_, recv_frame_arp_complete hacc hty hpl hA hc hq, rfl, rfl, rfl, rfl, ?_⟩
  intro hcond
  simp [replyList, hcond]

/-- Concrete instantiation of the C10 theorem: a REPLY from (9, 5) hits
a Resolved entry {5 ↦ 7}; only its TTL changes. -/
theorem recv_frame_resolved_refresh_only_witness :
    ∃ st', recv_frame
        { ethernet_address_ := 1, ip_address_ := 2,
          ARPTable := [{ complete_entry := true, ip_address := 5, mac_address := 7, ttl := 100 }],
          ReadyToBeSentQueue := [], IPQueues := [] }
        (makeFrame 9 1 EthernetHeader.TYPE_ARP
          (Payload.arp { opcode := 2, sender_ethernet_address := 9, sender_ip_address := 5,
                         target_ethernet_address := 1, target_ip_address := 2 })) =
        some (st', none) ∧
      st'.ARPTable =
        [({ complete_entry := true, ip_address := 5, mac_address := 7,
            ttl := 100 } : ARPTableEntry)].set 0
          ({ ({ complete_entry := true, ip_address := 5, mac_address := 7,
                ttl := 100 } : ARPTableEntry) with ttl := 30000 }) := by
  obtain ⟨st', heq, htbl, _⟩ := recv_frame_resolved_refresh_only
    { ethernet_address_ := 1, ip_address_ := 2,
      ARPTable := [{ complete_entry := true, ip_address := 5, mac_address := 7, ttl := 100 }],
      ReadyToBeSentQueue := [], IPQueues := [] }
    (makeFrame 9 1 EthernetHeader.TYPE_ARP
      (Payload.arp { opcode := 2, sender_ethernet_address := 9, sender_ip_address := 5,
                     target_ethernet_address := 1, target_ip_address := 2 }))
    { opcode := 2, sender_ethernet_address := 9, sender_ip_address := 5,
      target_ethernet_address := 1, target_ip_address := 2 }
    0 { complete_entry := true, ip_address := 5, mac_address := 7, ttl := 100 }
    (by decide) (Or.inl rfl) rfl rfl (by decide) rfl
  exact ⟨st', heq, htbl⟩

/-! ### The LPM scan: characterization of the selected routing entry -/

theorem lpmScan_char (dst : Nat) : ∀ (rt : List RoutingTableEntry) (acc : Int × RoutingTableEntry),
    (lpmScan dst rt acc = acc ∧
      ∀ e ∈ rt, isPrefixMatch dst e.routePrefix e.prefix_length = true →
        (e.prefix_length : Int) ≤ acc.fst) ∨
    (∃ l₁ e l₂, rt = l₁ ++ e :: l₂ ∧
      isPrefixMatch dst e.routePrefix e.prefix_length = true ∧
      acc.fst < (e.prefix_length : Int) ∧
      (∀ x ∈ l₁, isPrefixMatch dst x.routePrefix x.prefix_length = true →
        x.prefix_length < e.prefix_length) ∧
      (∀ x ∈ l₂, isPrefixMatch dst x.routePrefix x.prefix_length = true →
        x.prefix_length ≤ e.prefix_length) ∧
      lpmScan dst rt acc = ((e.prefix_length : Int), e)) := by
  intro rt
  induction rt with
  | nil =>
    intro acc
    left
    exact ⟨rfl, by simp⟩
  | cons x rest ih =>
    intro acc
    by_cases hcond : isPrefixMatch dst x.routePrefix x.prefix_length = true ∧
        (x.prefix_length : Int) > acc.fst
    · have hstep : lpmScan dst (x :: rest) acc =
          lpmScan dst rest ((x.prefix_length : Int), x) := by
        simp only [lpmScan]
        rw [if_pos hcond]
      rcases ih ((x.prefix_length : Int), x) with ⟨heq, hbound⟩ | ⟨l₁, e, l₂, hdec, hm, hgt, hb₁, hb₂, heq⟩
      · right
        refine ⟨[], x, rest, by simp, hcond.1, hcond.2, by simp, ?_, hstep.trans heq⟩
        intro y hy hmy
        have h2 : (y.prefix_length : Int) ≤ (x.prefix_length : Int) := hbound y hy hmy
        exact_mod_cast h2
      · right
        refine ⟨x :: l₁, e, l₂, by rw [hdec]; rfl, hm, lt_trans hcond.2 hgt, ?_, hb₂,
          hstep.trans heq⟩
        intro y hy hmy
        rcases List.mem_cons.mp hy with hy | hy
        · subst hy
          have h2 : (y.prefix_length : Int) < (e.prefix_length : Int) := hgt
          exact_mod_cast h2
        · exact hb₁ y hy hmy
    · have hstep : lpmScan dst (x :: rest) acc = lpmScan dst rest acc := by
        simp only [lpmScan]
        rw [if_neg hcond]
      rcases ih acc with ⟨heq, hbound⟩ | ⟨l₁, e, l₂, hdec, hm, hgt, hb₁, hb₂, heq⟩
      · left
        refine ⟨hstep.trans heq, ?_⟩
        intro y hy hmy
        rcases List.mem_cons.mp hy with hy | hy
        · subst hy
          rcases not_and_or.mp hcond with hcon | hcon
          · exact absurd hmy hcon
          · exact le_of_not_lt hcon
        · exact hbound y hy hmy
      · right
        refine ⟨x :: l₁, e, l₂, by rw [hdec]; rfl, hm, hgt, ?_, hb₂, hstep.trans heq⟩
        intro y hy hmy
        rcases List.mem_cons.mp hy with hy | hy
        · subst hy
          rcases not_and_or.mp hcond with hcon | hcon
          · exact absurd hmy hcon
          · have hya : (y.prefix_length : Int) ≤ acc.fst := le_of_not_lt hcon
            have : (y.prefix_length : Int) < (e.prefix_length : Int) := lt_of_le_of_lt hya hgt
            exact_mod_cast this
        · exact hb₁ y hy hmy

theorem get_append_lt {α : Type} : ∀ (l₁ l₂ : List α) (j : Nat) (hj : j < l₁.length)
    (hj2 : j < (l₁ ++ l₂).length), (l₁ ++ l₂).get ⟨j, hj2⟩ = l₁.get ⟨j, hj⟩ := by
  intro l₁
  induction l₁ with
  | nil =>
    intro l₂ j hj
    exact absurd hj (Nat.not_lt_zero j)
  | cons a t ih =>
    intro l₂ j hj hj2
    cases j with
    | zero => rfl
    | succ n => exact ih l₂ n (Nat.lt_of_succ_lt_succ hj) _

theorem get_length_append {α : Type} : ∀ (l₁ : List α) (e : α) (l₂ : List α)
    (h : l₁.length < (l₁ ++ e :: l₂).length), (l₁ ++ e :: l₂).get ⟨l₁.length, h⟩ = e := by
  intro l₁
  induction l₁ with
  | nil => intro e l₂ h; rfl
  | cons a t ih => intro e l₂ h; exact ih e l₂ _

/-! ### Claim C3: the LPM match predicate and the drop-on-no-match rule -/

/-- Claim C3.  (1) For `prefix_length ≤ 32`, an entry matches iff the
destination and the route prefix agree under the mask whose top
`prefix_length` bits are set; (2) the mask is all-zero for /0, which
matches everything; (3) a /32 entry requires exact equality (on 32-bit
addresses); (4) when any entry matches, the scan selects a matching
entry of greatest `prefix_length`; (5) when no entry matches, the
datagram is dropped: no `send_datagram` call, no state change. -/
theorem router_lpm_spec :
    (∀ a b pl : Nat, pl ≤ 32 →
      (isPrefixMatch a b pl = true ↔ a &&& maskSpec pl = b &&& maskSpec pl)) ∧
    (∀ a b : Nat, isPrefixMatch a b 0 = true) ∧
    (∀ a b : Nat, a < 2 ^ 32 → b < 2 ^ 32 →
      (isPrefixMatch a b 32 = true ↔ a = b)) ∧
    (∀ (rt : List RoutingTableEntry) (dst : Nat),
      (∃ e ∈ rt, isPrefixMatch dst e.routePrefix e.prefix_length = true) →
      ∃ e, lpm rt dst = ((e.prefix_length : Int), e) ∧ e ∈ rt ∧
        isPrefixMatch dst e.routePrefix e.prefix_length = true ∧
        ∀ x ∈ rt, isPrefixMatch dst x.routePrefix x.prefix_length = true →
          x.prefix_length ≤ e.prefix_length) ∧
    (∀ (chk : Nat → Nat → Nat) (rt : List RoutingTableEntry)
        (ifs : List AsyncNetworkInterface) (d : InternetDatagram),
      (∀ e ∈ rt, ¬isPrefixMatch d.header.dst e.routePrefix e.prefix_length = true) →
      processDatagram chk rt ifs d = some ifs) := by
  refine ⟨?_, ?_, ?_, ?_, ?_⟩
  · intro a b pl hpl
    interval_cases pl <;> simp [isPrefixMatch, maskSpec, Nat.and_zero]
  · intro a b
    rfl
  · intro a b ha hb
    have hmask : isPrefixMatch a b 32 = ((a &&& 4294967295) == (b &&& 4294967295)) := rfl
    rw [hmask, beq_iff_eq]
    have h1 : a &&& 4294967295 = a := by
      have := Nat.and_pow_two_sub_one_eq_mod a 32
      norm_num at this
      rw [this]
      exact Nat.mod_eq_of_lt (by norm_num at ha ⊢; omega)
    have h2 : b &&& 4294967295 = b := by
      have := Nat.and_pow_two_sub_one_eq_mod b 32
      norm_num at this
      rw [this]
      exact Nat.mod_eq_of_lt (by norm_num at hb ⊢; omega)
    rw [h1, h2]
  · intro rt dst hex
    rcases lpmScan_char dst rt (-999, RoutingTableEntry.default) with ⟨_, hbound⟩ | h
    · obtain ⟨e, he, hme⟩ := hex
      have := hbound e he hme
      simp at this
      omega
    · obtain ⟨l₁, e, l₂, hdec, hm, _, hb₁, hb₂, heq⟩ := h
      refine ⟨e, heq, by rw [hdec]; simp, hm, ?_⟩
      intro x hx hmx
      rw [hdec] at hx
      rcases List.mem_append.mp hx with hx | hx
      · exact le_of_lt (hb₁ x hx hmx)
      · rcases List.mem_cons.mp hx with hx | hx
        · rw [hx]
        · exact hb₂ x hx hmx
  · intro chk rt ifs d hno
    rcases lpmScan_char d.header.dst rt (-999, RoutingTableEntry.default) with ⟨heq, _⟩ | h
    · have hlpm : lpm rt d.header.dst = (-999, RoutingTableEntry.default) := heq
      simp [processDatagram, hlpm]
    · obtain ⟨l₁, e, l₂, hdec, hm, _⟩ := h
      exact absurd hm (hno e (by rw [hdec]; simp))

/-- Concrete instantiation of the C3 theorem: a /24 match on
10.0.0.1 vs 10.0.0.0 and a drop on an empty table. -/
theorem router_lpm_spec_witness :
    (isPrefixMatch 167772161 167772160 24 = true ↔
      167772161 &&& maskSpec 24 = 167772160 &&& maskSpec 24) ∧
    processDatagram (fun _ _ => 0) [] []
      { header := { dst := 1, ttl := 64, checksum := 0 }, body := 0 } = some [] :=
  ⟨router_lpm_spec.1 167772161 167772160 24 (by decide),
   router_lpm_spec.2.2.2.2 (fun _ _ => 0) [] []
     { header := { dst := 1, ttl := 64, checksum := 0 }, body := 0 } (by simp)⟩

/-! ### Claim C4: TTL check, decrement, checksum, and the forwarding call -/

/-- Claim C4.  When the LPM decision selects entry E: a datagram with
ttl ∈ {0, 1} is dropped silently (no `send_datagram`, no state change);
otherwise exactly one `send_datagram` happens on
`interfaces[E.interface_num]`, the forwarded datagram carries ttl − 1
and a recomputed header checksum, and the next hop is `E.next_hop` when
present, else the destination address of the datagram itself. -/
theorem router_forward_spec (chk : Nat → Nat → Nat) (rt : List RoutingTableEntry)
    (ifs : List AsyncNetworkInterface) (d : InternetDatagram) (l : Int)
    (E : RoutingTableEntry) (hl : lpm rt d.header.dst = (l, E)) (h0 : 0 ≤ l) :
    (d.header.ttl ≤ 1 → processDatagram chk rt ifs d = some ifs) ∧
    (1 < d.header.ttl → ∀ a, ifs[E.interface_num]? = some a →
      processDatagram chk rt ifs d =
        (send_datagram a.base
          { d with header :=
              compute_checksum chk { d.header with ttl := d.header.ttl - 1 } }
          (match E.next_hop with
           | some nh => nh
           | none => d.header.dst)).map
          (fun st' => ifs.set E.interface_num { a with base := st' })) := by
  constructor
  · intro httl
    have hn : ¬d.header.ttl > 1 := by omega
    simp [processDatagram, hl, hn, h0]
  · intro httl a ha
    cases hnh : E.next_hop with
    | some nh =>
      cases hs : send_datagram a.base
          { d with header :=
              compute_checksum chk { d.header with ttl := d.header.ttl - 1 } } nh with
      | none =>
        simp only [compute_checksum] at hs
        simp [processDatagram, compute_checksum, hl, httl, h0, ha, hnh, hs]
      | some st' =>
        simp only [compute_checksum] at hs
        simp [processDatagram, compute_checksum, hl, httl, h0, ha, hnh, hs]
    | none =>
      cases hs : send_datagram a.base
          { d with header :=
              compute_checksum chk { d.header with ttl := d.header.ttl - 1 } }
          d.header.dst with
      | none =>
        simp only [compute_checksum] at hs
        simp [processDatagram, compute_checksum, hl, httl, h0, ha, hnh, hs]
      | some st' =>
        simp only [compute_checksum] at hs
        simp [processDatagram, compute_checksum, hl, httl, h0, ha, hnh, hs]

/-- Concrete instantiation of the C4 theorem: a default route via next
hop 9 forwards a ttl-64 datagram out of interface 0. -/
theorem router_forward_spec_witness :
    processDatagram (fun a b => a + b)
      [{ routePrefix := 0, prefix_length := 0, next_hop := some 9, interface_num := 0 }]
      [{ base := initInterface 1 2, datagrams_in_ := [] }]
      { header := { dst := 5, ttl := 64, checksum := 0 }, body := 0 } =
    (send_datagram (initInterface 1 2)
      { header := compute_checksum (fun a b => a + b) { dst := 5, ttl := 63, checksum := 0 },
        body := 0 } 9).map
      (fun st' => [{ base := st', datagrams_in_ := [] }]) :=
  (router_forward_spec (fun a b => a + b)
    [{ routePrefix := 0, prefix_length := 0, next_hop := some 9, interface_num := 0 }]
    [{ base := initInterface 1 2, datagrams_in_ := [] }]
    { header := { dst := 5, ttl := 64, checksum := 0 }, body := 0 }
    0 { routePrefix := 0, prefix_length := 0, next_hop := some 9, interface_num := 0 }
    (by decide) (by decide)).2 (by decide)
    { base := initInterface 1 2, datagrams_in_ := [] } rfl

/-! ### Claim C9: equal-length ties go to the earliest-inserted entry -/

/-- Claim C9.  If position j holds a matching entry whose prefix length
is maximal among matching entries, and no earlier position holds a
matching entry of the same prefix length, then the scan selects exactly
the entry at position j: the candidate is only replaced on a strictly
greater prefix length, so the earliest entry among equal-length best
matches wins. -/
theorem router_lpm_tiebreak (rt : List RoutingTableEntry) (dst : Nat) (j : Nat)
    (hj : j < rt.length)
    (hmatch : isPrefixMatch dst (rt.get ⟨j, hj⟩).routePrefix
      (rt.get ⟨j, hj⟩).prefix_length = true)
    (hmax : ∀ x ∈ rt, isPrefixMatch dst x.routePrefix x.prefix_length = true →
      x.prefix_length ≤ (rt.get ⟨j, hj⟩).prefix_length)
    (hfirst : ∀ k (hk : k < j),
      ¬(isPrefixMatch dst (rt.get ⟨k, lt_trans hk hj⟩).routePrefix
          (rt.get ⟨k, lt_trans hk hj⟩).prefix_length = true ∧
        (rt.get ⟨k, lt_trans hk hj⟩).prefix_length = (rt.get ⟨j, hj⟩).prefix_length)) :
    lpm rt dst = (((rt.get ⟨j, hj⟩).prefix_length : Int), rt.get ⟨j, hj⟩) := by
  rcases lpmScan_char dst rt (-999, RoutingTableEntry.default) with ⟨_, hbound⟩ | h
  · have := hbound (rt.get ⟨j, hj⟩) (rt.get_mem _ _) hmatch
    simp at this
    omega
  · obtain ⟨l₁, e, l₂, hdec, hm, _, hb₁, hb₂, heq⟩ := h
    subst hdec
    have hemem : e ∈ l₁ ++ e :: l₂ := by simp
    have hle₁ : e.prefix_length ≤ ((l₁ ++ e :: l₂).get ⟨j, hj⟩).prefix_length :=
      hmax e hemem hm
    have hi : l₁.length < (l₁ ++ e :: l₂).length := by
      rw [List.length_append, List.length_cons]
      omega
    have hgete : (l₁ ++ e :: l₂).get ⟨l₁.length, hi⟩ = e := get_length_append l₁ e l₂ hi
    have hball : ∀ x ∈ l₁ ++ e :: l₂,
        isPrefixMatch dst x.routePrefix x.prefix_length = true →
        x.prefix_length ≤ e.prefix_length := by
      intro x hx hmx
      rcases List.mem_append.mp hx with hx | hx
      · exact le_of_lt (hb₁ x hx hmx)
      · rcases List.mem_cons.mp hx with hx | hx
        · rw [hx]
        · exact hb₂ x hx hmx
    have hle₂ : ((l₁ ++ e :: l₂).get ⟨j, hj⟩).prefix_length ≤ e.prefix_length :=
      hball _ (List.get_mem _ _ _) hmatch
    have hlen : e.prefix_length = ((l₁ ++ e :: l₂).get ⟨j, hj⟩).prefix_length :=
      le_antisymm hle₁ hle₂
    have hej : e = (l₁ ++ e :: l₂).get ⟨j, hj⟩ := by
      rcases Nat.lt_trichotomy j l₁.length with hlt | heqj | hgt
      · exfalso
        have hgetj : (l₁ ++ e :: l₂).get ⟨j, hj⟩ = l₁.get ⟨j, hlt⟩ :=
          get_append_lt l₁ (e :: l₂) j hlt hj
        have := hb₁ (l₁.get ⟨j, hlt⟩) (l₁.get_mem _ _) (by rw [← hgetj]; exact hmatch)
        rw [hgetj] at hlen
        omega
      · have hfin : (⟨j, hj⟩ : Fin (l₁ ++ e :: l₂).length) = ⟨l₁.length, hi⟩ :=
          Fin.ext heqj
        rw [hfin, hgete]
      · exfalso
        exact hfirst l₁.length hgt ⟨by rw [hgete]; exact hm, by rw [hgete]; omega⟩
    unfold lpm
    rw [heq, ← hej]

/-- Concrete instantiation of the C9 theorem: two /8 default-prefix
routes both match; the first-inserted one (interface 0) is selected. -/
theorem router_lpm_tiebreak_witness :
    lpm [{ routePrefix := 0, prefix_length := 8, next_hop := none, interface_num := 0 },
         { routePrefix := 0, prefix_length := 8, next_hop := none, interface_num := 1 }] 0 =
      ((8 : Int),
       { routePrefix := 0, prefix_length := 8, next_hop := none, interface_num := 0 }) :=
  router_lpm_tiebreak
    [{ routePrefix := 0, prefix_length := 8, next_hop := none, interface_num := 0 },
     { routePrefix := 0, prefix_length := 8, next_hop := none, interface_num := 1 }] 0 0
    (by decide) (by decide) (by decide)
    (fun k hk => absurd hk (Nat.not_lt_zero k))

end NetLink
